import Mathlib

/-!
Verification of the normalization engine of `csv-to-postgresql-injestion`
(`src/normalize_table.py`): the two table-splitting operations
`split_with_foreign_key` and `split_many_to_many`.

The embedding models a pandas `DataFrame` as a list of column names together
with a list of rows (lists of cells).  Cell values (`Val`) cover the value
kinds the program manipulates: strings, integers, nulls (`NaN`/`None`/`pd.NA`
are not distinguished, matching the fact that pandas treats them all as "na"
in `isnull`, `fillna`, `drop_duplicates` and merge keys), and the Python
container values `list` / `set` / `tuple` of strings that the multivalued
columns hold.

Fallible pandas operations are embedded in `Except Err`:

* the explicit `raise ValueError(...)` validations of the source are the
  named `Err` constructors;
* hash-based operations (`Series.nunique`, `DataFrame.drop_duplicates`, merge
  key factorization) raise `TypeError: unhashable type` when they meet a
  `list`/`set` value — embedded as `Err.unhashable`;
* column selection `df[[...]]` / `df.drop(columns=...)` of a missing label
  raises `KeyError` — embedded as `Err.keyError`;
* Python `str.split("")` raises `ValueError: empty separator` — embedded as
  `Err.emptySeparator`.

In-place mutation: `split_with_foreign_key` assigns
`df[key_col] = df[key_col].fillna('Unknown')` on the *caller's* frame, so the
embedded function returns the caller-visible final state of its input as the
first component of its result.  `split_many_to_many` takes `df = df.copy()`
before its only column assignment (and otherwise only derives new frames), so
the caller-visible final state there is the unchanged input.
-/

namespace CsvNorm

/-- A pandas cell value.  Containers hold strings, which is the only element
type the program ever puts in them (delimited text split into pieces). -/
inductive Val where
  | vnull : Val
  | vstr (s : String) : Val
  | vint (n : Int) : Val
  | vlist (xs : List String) : Val
  | vset (xs : List String) : Val
  | vtuple (xs : List String) : Val
  deriving DecidableEq, Repr

abbrev Row := List Val

/-- A pandas DataFrame: named columns, row-major cells. -/
structure DataFrame where
  cols : List String
  rows : List Row
  deriving DecidableEq, Repr

/-- Well-formedness: every row has one cell per column, and column labels are
distinct (as they are for every frame the program builds from `read_csv`). -/
def DataFrame.WF (df : DataFrame) : Prop :=
  (∀ r ∈ df.rows, r.length = df.cols.length) ∧ df.cols.Nodup

/-- Errors of the embedded operations; see the module comment. -/
inductive Err where
  | emptyDF : Err
  | tooFewRows : Err
  | colNotFound (c : String) : Err
  | badDtype (c : String) : Err
  | allNullCol (c : String) : Err
  | allUnique (c : String) : Err
  | oneUnique (c : String) : Err
  | multivalued (c : String) : Err
  | unhashable : Err
  | keyError (c : String) : Err
  | emptySeparator : Err
  deriving DecidableEq, Repr

def DataFrame.nrows (df : DataFrame) : Nat := df.rows.length

/-- Index of the first occurrence of an element in a list. -/
def idxOfFirst {α : Type} [DecidableEq α] : List α → α → Option Nat
  | [], _ => none
  | c :: cs, t => if c = t then some 0 else (idxOfFirst cs t).map (· + 1)

/-- Index of a column label. -/
def DataFrame.colIdx (df : DataFrame) (c : String) : Option Nat :=
  idxOfFirst df.cols c

/-- The values of a named column (`df[c]`), `none` when the label is absent. -/
def DataFrame.getCol (df : DataFrame) (c : String) : Option (List Val) :=
  (df.colIdx c).map (fun i => df.rows.map (fun r => r.getD i .vnull))

/-- `df.empty`: true when the frame has no rows or no columns. -/
def DataFrame.empty (df : DataFrame) : Bool :=
  df.rows.isEmpty || df.cols.isEmpty

/-- Is a value "na" for pandas (`isnull`)? -/
def Val.isNull : Val → Bool
  | .vnull => true
  | _ => false

/-- Can Python hash the value?  Lists and sets cannot; pandas' hash-table based
operations raise `TypeError: unhashable type` on them. -/
def Val.hashableVal : Val → Bool
  | .vlist _ => false
  | .vset _ => false
  | _ => true

/-- Is the value a Python `list`, `set` or `tuple` (the
`type(x) in [list, set, tuple]` test of the source)? -/
def Val.isContainer : Val → Bool
  | .vlist _ => true
  | .vset _ => true
  | .vtuple _ => true
  | _ => false

/-- First-occurrence deduplication with an accumulator of already-seen
elements. -/
def dedupFAux {α : Type} [DecidableEq α] : List α → List α → List α
  | [], _ => []
  | x :: xs, seen =>
    if x ∈ seen then dedupFAux xs seen else x :: dedupFAux xs (x :: seen)

/-- First-occurrence deduplication (the order pandas `unique` /
`drop_duplicates` keep). -/
def dedupF {α : Type} [DecidableEq α] (l : List α) : List α :=
  dedupFAux l []

/-- `Series.nunique()`: hash-based uniques, then the na values are dropped
from the count.  Unhashable values make it raise. -/
def nuniqueE (vs : List Val) : Except Err Nat :=
  if vs.all Val.hashableVal then
    .ok ((dedupF vs).filter (fun v => ¬ v.isNull)).length
  else .error .unhashable

/-- The storage dtypes the program's checks distinguish. -/
inductive Dtype where
  | object : Dtype
  | int64 : Dtype
  | float64 : Dtype
  deriving DecidableEq, Repr

/-- Dtype of a column as `read_csv` / column construction produce it: any
string or container makes the column `object`; otherwise the presence of a
null (`NaN`) makes it `float64`; a pure integer column is `int64`. -/
def inferDtype (vs : List Val) : Dtype :=
  if vs.any (fun v => v.isContainer || (match v with | .vstr _ => true | _ => false)) then
    .object
  else if vs.any Val.isNull then .float64
  else .int64

/-- `fillna('Unknown')` on one value. -/
def fillUnknown (v : Val) : Val :=
  match v with
  | .vnull => .vstr "Unknown"
  | v => v

/-- `df[c] = df[c].fillna('Unknown')`.  Identity when the label is absent
(every call site has validated its presence). -/
def DataFrame.fillnaCol (df : DataFrame) (c : String) : DataFrame :=
  match df.colIdx c with
  | none => df
  | some i => { df with rows := df.rows.map (fun r => r.set i (fillUnknown (r.getD i .vnull))) }

/-- Python `repr` of a string, as `str()` shows container elements. -/
def pyQuote (s : String) : String := "'" ++ s ++ "'"

/-- Python `str()` of a value, used by `astype('string')` on non-string
objects. -/
def pyStr : Val → String
  | .vnull => ""
  | .vstr s => s
  | .vint n => toString n
  | .vlist xs => "[" ++ String.intercalate ", " (xs.map pyQuote) ++ "]"
  | .vtuple [x] => "(" ++ pyQuote x ++ ",)"
  | .vtuple xs => "(" ++ String.intercalate ", " (xs.map pyQuote) ++ ")"
  | .vset xs => "\x7b" ++ String.intercalate ", " (xs.map pyQuote) ++ "\x7d"

/-- `astype({c: 'string'})` on one value: strings stay, na stays na (`pd.NA`),
anything else is passed through `str()`. -/
def astypeStringVal (v : Val) : Val :=
  match v with
  | .vnull => .vnull
  | .vstr s => .vstr s
  | v => .vstr (pyStr v)

/-- `df.astype({c: 'string'})`; raises `KeyError` when the label is absent. -/
def DataFrame.astypeStringCol (df : DataFrame) (c : String) : Except Err DataFrame :=
  match df.colIdx c with
  | none => .error (.keyError c)
  | some i =>
    .ok { df with rows := df.rows.map (fun r => r.set i (astypeStringVal (r.getD i .vnull))) }

/-- `df[names]` column selection; `KeyError` on a missing label. -/
def DataFrame.selectE (df : DataFrame) (names : List String) : Except Err DataFrame :=
  match names.find? (fun c => ¬ c ∈ df.cols) with
  | some c => .error (.keyError c)
  | none =>
    .ok { cols := names,
          rows := df.rows.map (fun r =>
            names.map (fun c => r.getD ((df.colIdx c).getD 0) .vnull)) }

/-- `df.drop(columns=[c])`; `KeyError` on a missing label. -/
def DataFrame.dropColE (df : DataFrame) (c : String) : Except Err DataFrame :=
  match df.colIdx c with
  | none => .error (.keyError c)
  | some i =>
    .ok { cols := df.cols.eraseIdx i, rows := df.rows.map (fun r => r.eraseIdx i) }

/-- `df.rename(columns={old: new})`: total, renames every matching label. -/
def DataFrame.renameCol (df : DataFrame) (old new : String) : DataFrame :=
  { df with cols := df.cols.map (fun c => if c = old then new else c) }

/-- `df['id'] = df.index + 1` after `reset_index(drop=True)`: overwrite an
existing `id` column in place, otherwise append it. -/
def DataFrame.addId (df : DataFrame) : DataFrame :=
  match df.colIdx "id" with
  | some i =>
    { df with rows := df.rows.enum.map (fun p => p.2.set i (.vint (p.1 + 1))) }
  | none =>
    { cols := df.cols ++ ["id"],
      rows := df.rows.enum.map (fun p => p.2 ++ [.vint (p.1 + 1)]) }

/-- `df.drop_duplicates()` (first occurrences kept); raises on unhashable
cells, which pandas cannot put in its hash table. -/
def DataFrame.dropDupE (df : DataFrame) : Except Err DataFrame :=
  if df.rows.all (fun r => r.all Val.hashableVal) then
    .ok { df with rows := dedupF df.rows }
  else .error .unhashable

/-- One-value explosion: list-likes become one row per element (an empty
list-like yields a single null), scalars and nulls stay as they are. -/
def explodeVal : Val → List Val
  | .vlist [] => [.vnull]
  | .vlist xs => xs.map .vstr
  | .vtuple [] => [.vnull]
  | .vtuple xs => xs.map .vstr
  | .vset [] => [.vnull]
  | .vset xs => xs.map .vstr
  | v => [v]

/-- `df.explode(c).reset_index(drop=True)`; `KeyError` on a missing label. -/
def DataFrame.explodeE (df : DataFrame) (c : String) : Except Err DataFrame :=
  match df.colIdx c with
  | none => .error (.keyError c)
  | some i =>
    .ok { df with rows := df.rows.flatMap (fun r =>
            (explodeVal (r.getD i .vnull)).map (fun v => r.set i v)) }

/-- Column labels of `df1.merge(df2, on=key, suffixes=(sufL, sufR))`: the left
labels (suffixed when they clash with a right label and are not the key),
then the right labels minus the key (suffixed on clash). -/
def mergeCols (c1 c2 : List String) (key sufL sufR : String) : List String :=
  c1.map (fun c => if c ≠ key ∧ c ∈ c2 then c ++ sufL else c) ++
    (c2.filter (fun c => c ≠ key)).map (fun c => if c ∈ c1 then c ++ sufR else c)

/-- Inner merge on a single key column.  Pandas factorizes the key values of
both frames through a hash table (raising on unhashables) and matches them by
equality — na keys match na keys.  Output rows preserve left-frame order;
each matched right row contributes its cells minus the key cell. -/
def DataFrame.mergeE (df1 df2 : DataFrame) (key sufL sufR : String) :
    Except Err DataFrame :=
  match df1.colIdx key, df2.colIdx key with
  | some i, some j =>
    if df1.rows.all (fun r => (r.getD i .vnull).hashableVal) ∧
        df2.rows.all (fun r => (r.getD j .vnull).hashableVal) then
      .ok { cols := mergeCols df1.cols df2.cols key sufL sufR,
            rows := df1.rows.flatMap (fun r1 =>
              (df2.rows.filter (fun r2 => r2.getD j .vnull = r1.getD i .vnull)).map
                (fun r2 => r1 ++ r2.eraseIdx j)) }
    else .error .unhashable
  | _, _ => .error (.keyError key)

/-- Python `str.split(sep)` over character lists: cut at each left-to-right,
non-overlapping occurrence of the (nonempty) separator.  The fuel argument
(instantiated with the text's length) only makes the recursion structural. -/
def splitSepAux (sep : List Char) : Nat → List Char → List Char → List (List Char)
  | _, [], acc => [acc.reverse]
  | 0, l, acc => [acc.reverse ++ l]
  | fuel + 1, c :: cs, acc =>
    if sep.isPrefixOf (c :: cs) then
      acc.reverse :: splitSepAux sep fuel ((c :: cs).drop sep.length) []
    else splitSepAux sep fuel cs (c :: acc)

/-- Python `x.split(sep)` for a nonempty separator. -/
def pySplit (x sep : String) : List String :=
  (splitSepAux sep.data x.data.length x.data []).map (fun cs => ⟨cs⟩)

/-- Python `str.strip()`: drop leading and trailing whitespace. -/
def pyStrip (s : String) : String :=
  ⟨((s.data.dropWhile Char.isWhitespace).reverse.dropWhile Char.isWhitespace).reverse⟩

/-- `[v.strip() for v in x.split(sep)]` for a nonempty separator. -/
def pySplitTrim (x sep : String) : List String :=
  (pySplit x sep).map pyStrip

/-- The separator normalization step of `split_many_to_many`: non-null string
values are split and trimmed into lists; every other value (already a
sequence, or null, or non-string) passes through unchanged.  Python's
`str.split` raises on an empty separator. -/
def DataFrame.normalizeSepE (df : DataFrame) (c : String) (sep : String) :
    Except Err DataFrame :=
  match df.colIdx c with
  | none => .error (.keyError c)
  | some i =>
    if sep = "" ∧ df.rows.any (fun r => match r.getD i .vnull with
        | .vstr _ => true | _ => false) then
      .error .emptySeparator
    else
      .ok { df with rows := df.rows.map (fun r =>
              match r.getD i .vnull with
              | .vstr s => r.set i (.vlist (pySplitTrim s sep))
              | _ => r) }

/-- Step 1 of `split_many_to_many`: with no separator the frame passes
through; with a separator the right column is split-and-trimmed (on the local
copy `df = df.copy()`). -/
def normalizeStep (df : DataFrame) (c : String) : Option String → Except Err DataFrame
  | none => .ok df
  | some s => df.normalizeSepE c s

/-!
## The two splitting operations

Each embedded function follows its Python source statement by statement.
The first component of a successful result is the caller-visible final state
of the input frame (see the module comment on in-place mutation).
-/

/-- `split_with_foreign_key(df, key_col)` of `src/normalize_table.py`
(lines 10–59).  Returns `(df after the call, child, parent)`. -/
def splitWithForeignKey (df : DataFrame) (keyCol : String) :
    Except Err (DataFrame × DataFrame × DataFrame) := do
  -- `isinstance(df, pd.DataFrame)` always holds in the typed embedding.
  if df.empty then throw .emptyDF
  if df.nrows < 2 then throw .tooFewRows
  if ¬ keyCol ∈ df.cols then throw (.colNotFound keyCol)
  let vals := (df.getCol keyCol).getD []
  if inferDtype vals ≠ .object then throw (.badDtype keyCol)
  if vals.all Val.isNull then throw (.allNullCol keyCol)
  let n ← nuniqueE vals
  if n = df.nrows then throw (.allUnique keyCol)
  if n = 1 then throw (.oneUnique keyCol)
  -- `type(df[key_col].iloc[0]) in [list, set, tuple]`: only the first row.
  if (vals.getD 0 .vnull).isContainer then throw (.multivalued keyCol)
  -- parent = df[[key_col]].drop_duplicates().reset_index(drop=True)
  let p0 ← df.selectE [keyCol]
  let p1 ← p0.dropDupE
  -- parent = parent.astype({key_col: 'string'})
  let p2 ← p1.astypeStringCol keyCol
  -- parent['id'] = parent.index + 1
  let p3 := p2.addId
  -- df[key_col] = df[key_col].fillna('Unknown')   (mutates the caller's df)
  let dfA := df.fillnaCol keyCol
  -- parent[key_col] = parent[key_col].fillna('Unknown')
  let parent := p3.fillnaCol keyCol
  -- child = df.merge(parent, on=key_col, suffixes=("", "_parent"))
  --           .rename(columns={'id_parent': f'{key_col}_id'})
  let m ← dfA.mergeE parent keyCol "" "_parent"
  let renamed := m.renameCol "id_parent" (keyCol ++ "_id")
  -- return child.drop(columns=[key_col]), parent
  let child ← renamed.dropColE keyCol
  return (dfA, child, parent)

/-- `split_many_to_many(df, left_col, right_col, sep=None)` of
`src/normalize_table.py` (lines 61–142).  Returns
`(df after the call, left, right, junction)`. -/
def splitManyToMany (df : DataFrame) (leftCol rightCol : String)
    (sep : Option String) : Except Err (DataFrame × DataFrame × DataFrame × DataFrame) := do
  if df.empty then throw .emptyDF
  if df.nrows < 2 then throw .tooFewRows
  if ¬ leftCol ∈ df.cols then throw (.colNotFound leftCol)
  if ¬ rightCol ∈ df.cols then throw (.colNotFound rightCol)
  if ((df.getCol leftCol).getD []).all Val.isNull then throw (.allNullCol leftCol)
  if ((df.getCol rightCol).getD []).all Val.isNull then throw (.allNullCol rightCol)
  let n ← nuniqueE ((df.getCol rightCol).getD [])
  if n = df.nrows then throw (.allUnique rightCol)
  -- 1. normalize (on `df = df.copy()`, so the caller's frame is untouched)
  let df1 ← normalizeStep df rightCol sep
  -- 2. df_exploded = df.explode(right_col).reset_index(drop=True)
  let dfExploded ← df1.explodeE rightCol
  -- left = df[left_columns].drop_duplicates().reset_index(drop=True)
  let l0 ← df1.selectE (df1.cols.filter (fun c => c ≠ rightCol))
  let left ← l0.dropDupE
  -- right = df_exploded[[right_col]].drop_duplicates().reset_index(drop=True)
  let r0 ← dfExploded.selectE [rightCol]
  let r1 ← r0.dropDupE
  -- right['id'] = right.index + 1
  let r2 := r1.addId
  -- right = right.astype({right_col: 'string'})
  let r3 ← r2.astypeStringCol rightCol
  -- right.loc[right[right_col].isnull(), right_col] = 'Unknown'
  let right := r3.fillnaCol rightCol
  -- junction = df_exploded.merge(left, on=left_col)
  --                       .merge(right, on=right_col, suffixes=("_left","_right"))
  let m1 ← dfExploded.mergeE left leftCol "_x" "_y"
  let m2 ← m1.mergeE right rightCol "_left" "_right"
  -- [['id_left', 'id_right']].drop_duplicates().reset_index(drop=True)
  let sel ← m2.selectE ["id_left", "id_right"]
  let jd ← sel.dropDupE
  -- .rename(columns={'id_right': f'{right_col}_id', 'id_left': 'title_id'})
  let junction := (jd.renameCol "id_right" (rightCol ++ "_id")).renameCol "id_left" "title_id"
  return (df, left, right, junction)

/-- Is the value a string or a null — the shapes a textual (object-dtype)
CSV column holds? -/
def Val.isTextual : Val → Bool
  | .vnull => true
  | .vstr _ => true
  | _ => false

/-- The dense surrogate id sequence `1..n` as column values. -/
def idsFrom (n : Nat) : List Val :=
  (List.range n).map (fun i : Nat => .vint (i + 1))

/-- The parent/entity key list: distinct values of the source column in
first-occurrence order, nulls coalesced to `"Unknown"` (the coalescing
happens after deduplication, which is why a literal `"Unknown"` and a null
can yield two equal parent keys). -/
def coalescedKeys (vals : List Val) : List Val :=
  (dedupF vals).map fillUnknown

/-- The surrogate id the parent table assigns to (the coalesced form of) a
source value: position of its first occurrence among the parent keys,
1-based. -/
def parentIdOf (vals : List Val) (v : Val) : Nat :=
  (coalescedKeys vals).findIdx (fun x => x = fillUnknown v) + 1

/-!
## Concrete input tables used to settle the claims
-/

/-- Key column holding both the literal string `"Unknown"` and a null. -/
def exC1 : DataFrame :=
  ⟨["k"], [[.vstr "Unknown"], [.vnull], [.vstr "a"], [.vstr "a"]]⟩

/-- A movie-type style table: valid one-to-many input. -/
def exC1w : DataFrame :=
  ⟨["t"], [[.vstr "Movie"], [.vstr "TV Show"], [.vstr "Movie"]]⟩

/-- Valid one-to-many input whose key column contains a null. -/
def exC2 : DataFrame :=
  ⟨["k", "v"], [[.vstr "a", .vstr "x"], [.vnull, .vstr "y"],
    [.vstr "b", .vstr "z"], [.vstr "a", .vstr "w"]]⟩

/-- `exC2` as the caller sees it after `split_with_foreign_key`: the null in
`k` has been replaced by `"Unknown"` in place. -/
def exC2After : DataFrame :=
  ⟨["k", "v"], [[.vstr "a", .vstr "x"], [.vstr "Unknown", .vstr "y"],
    [.vstr "b", .vstr "z"], [.vstr "a", .vstr "w"]]⟩

/-- Valid one-to-many input without nulls, for the frame-condition witness. -/
def exC2w : DataFrame :=
  ⟨["t", "u"], [[.vstr "A", .vstr "p"], [.vstr "B", .vstr "q"],
    [.vstr "A", .vstr "r"]]⟩

/-- Valid many-to-many input, for the frame-condition witness. -/
def exC2wMM : DataFrame :=
  ⟨["id", "g"], [[.vint 1, .vstr "x"], [.vint 2, .vstr "x"]]⟩

/-- The `(left, right, junction)` tables `split_many_to_many` returns on
`exC2wMM`. -/
def exC2wMMOut : DataFrame × DataFrame × DataFrame :=
  (⟨["id"], [[.vint 1], [.vint 2]]⟩,
   ⟨["g", "id"], [[.vstr "x", .vint 1]]⟩,
   ⟨["title_id", "g_id"], [[.vint 1, .vint 1], [.vint 2, .vint 1]]⟩)

/-- The spec scenario: a row with a null `country` and separator `","`. -/
def exC3 : DataFrame :=
  ⟨["id", "country"], [[.vint 1, .vnull], [.vint 2, .vstr "France"]]⟩

/-- Valid one-to-many input with an `id` column, for the id-density witness. -/
def exC4w : DataFrame :=
  ⟨["id", "t"], [[.vint 1, .vstr "M"], [.vint 2, .vstr "T"], [.vint 3, .vstr "M"]]⟩

/-- Valid many-to-many input, for the id-density witness. -/
def exC4wMM : DataFrame :=
  ⟨["id", "course"], [[.vint 1, .vstr "m"], [.vint 2, .vstr "m"]]⟩

/-- Valid one-to-many input with no column named `id`. -/
def exC5 : DataFrame :=
  ⟨["k", "v"], [[.vstr "a", .vstr "x"], [.vstr "a", .vstr "y"],
    [.vstr "b", .vstr "z"]]⟩

/-- Valid one-to-many input with an `id` column, for the child-shape witness. -/
def exC5w : DataFrame :=
  ⟨["id", "s"], [[.vint 1, .vstr "P"], [.vint 2, .vstr "Q"], [.vint 3, .vstr "P"]]⟩

/-- Valid many-to-many input whose columns are literally named `id_left` and
`id_right`, making the junction projection pick the raw data columns. -/
def exC6 : DataFrame :=
  ⟨["id_left", "id_right"], [[.vstr "a", .vstr "x"], [.vstr "b", .vstr "x"]]⟩

/-- Valid many-to-many input for the referential-integrity witness. -/
def exC6w : DataFrame :=
  ⟨["id", "g"], [[.vint 1, .vstr "x"], [.vint 2, .vstr "x"], [.vint 3, .vstr "y"]]⟩

/-- Valid many-to-many input whose left key column is not named `id`. -/
def exC7 : DataFrame :=
  ⟨["name", "course"], [[.vstr "a", .vstr "m"], [.vstr "b", .vstr "m"]]⟩

/-- Valid many-to-many input for the junction-columns witness. -/
def exC7w : DataFrame :=
  ⟨["id", "tag"], [[.vint 1, .vstr "u"], [.vint 2, .vstr "u"]]⟩

/-- Key column whose second row holds a tuple but whose first row is a
string. -/
def exC8 : DataFrame :=
  ⟨["k"], [[.vstr "a"], [.vtuple ["x", "y"]], [.vstr "a"]]⟩

/-- Key column whose first row holds a tuple. -/
def exC8w : DataFrame :=
  ⟨["k"], [[.vtuple ["x", "y"]], [.vtuple ["x", "y"]], [.vstr "a"]]⟩

/-- Right column already storing lists of strings, to be used with
`sep=None`. -/
def exC9 : DataFrame :=
  ⟨["id", "course"], [[.vint 1, .vlist ["math", "sci"]], [.vint 2, .vlist ["math"]]]⟩

/-- Table whose left key column is entirely null. -/
def exC10w : DataFrame :=
  ⟨["l", "r"], [[.vnull, .vstr "x"], [.vnull, .vstr "x"]]⟩

/-!
## General helper lemmas
-/

theorem bindOk {α β : Type} {x : Except Err α} {f : α → Except Err β} {b : β}
    (h : Except.bind x f = .ok b) : ∃ a, x = .ok a ∧ f a = .ok b := by
  cases x with
  | error e => simp [Except.bind] at h
  | ok a => exact ⟨a, rfl, by simpa [Except.bind] using h⟩

theorem mem_dedupFAux {α : Type} [DecidableEq α] {a : α} :
    ∀ {l seen : List α}, a ∈ dedupFAux l seen ↔ a ∈ l ∧ a ∉ seen := by
  intro l
  induction l with
  | nil => simp [dedupFAux]
  | cons x xs ih =>
    intro seen
    by_cases hx : x ∈ seen
    · rw [dedupFAux, if_pos hx, ih]
      constructor
      · rintro ⟨h1, h2⟩; exact ⟨List.mem_cons_of_mem _ h1, h2⟩
      · rintro ⟨h1, h2⟩
        rcases List.mem_cons.mp h1 with rfl | h1
        · exact absurd hx h2
        · exact ⟨h1, h2⟩
    · rw [dedupFAux, if_neg hx]
      constructor
      · intro hm
        rcases List.mem_cons.mp hm with rfl | hm
        · exact ⟨List.mem_cons_self _ _, hx⟩
        · obtain ⟨h1, h2⟩ := ih.mp hm
          exact ⟨List.mem_cons_of_mem _ h1, fun hs => h2 (List.mem_cons_of_mem _ hs)⟩
      · rintro ⟨h1, h2⟩
        rcases List.mem_cons.mp h1 with rfl | h1
        · exact List.mem_cons_self _ _
        · by_cases hax : a = x
          · exact hax ▸ List.mem_cons_self _ _
          · exact List.mem_cons_of_mem _
              (ih.mpr ⟨h1, fun hs => (List.mem_cons.mp hs).elim hax h2⟩)

theorem mem_dedupF {α : Type} [DecidableEq α] {a : α} {l : List α} :
    a ∈ dedupF l ↔ a ∈ l := by
  simp [dedupF, mem_dedupFAux]

theorem nodup_dedupFAux {α : Type} [DecidableEq α] :
    ∀ {l seen : List α}, (dedupFAux l seen).Nodup := by
  intro l
  induction l with
  | nil => simp [dedupFAux]
  | cons x xs ih =>
    intro seen
    by_cases hx : x ∈ seen
    · simpa [dedupFAux, if_pos hx] using ih
    · simp only [dedupFAux, if_neg hx, List.nodup_cons]
      exact ⟨fun hm => (mem_dedupFAux.mp hm).2 (List.mem_cons_self _ _), ih⟩

theorem nodup_dedupF {α : Type} [DecidableEq α] {l : List α} :
    (dedupF l).Nodup := nodup_dedupFAux

theorem dedupFAux_map {α β : Type} [DecidableEq α] [DecidableEq β] {f : α → β}
    (hf : Function.Injective f) :
    ∀ (l seen : List α), dedupFAux (l.map f) (seen.map f) = (dedupFAux l seen).map f := by
  intro l
  induction l with
  | nil => simp [dedupFAux]
  | cons x xs ih =>
    intro seen
    have hmem : f x ∈ seen.map f ↔ x ∈ seen := by
      constructor
      · intro h
        obtain ⟨y, hy, he⟩ := List.mem_map.mp h
        exact (hf he) ▸ hy
      · exact fun h => List.mem_map_of_mem f h
    by_cases hx : x ∈ seen
    · simp only [List.map_cons, dedupFAux, if_pos (hmem.mpr hx), if_pos hx]
      exact ih seen
    · simp only [List.map_cons, dedupFAux, if_neg (fun h => hx (hmem.mp h)), if_neg hx]
      simpa [List.map_cons] using congrArg (f x :: ·) (ih (x :: seen))

theorem dedupF_map {α β : Type} [DecidableEq α] [DecidableEq β] {f : α → β}
    (hf : Function.Injective f) (l : List α) :
    dedupF (l.map f) = (dedupF l).map f := by
  simpa [dedupF] using dedupFAux_map hf l []

theorem idxOfFirst_eq_none {α : Type} [DecidableEq α] {l : List α} {t : α} :
    idxOfFirst l t = none ↔ t ∉ l := by
  induction l with
  | nil => simp [idxOfFirst]
  | cons c cs ih =>
    by_cases hc : c = t
    · simp [idxOfFirst, hc]
    · simp [idxOfFirst, hc, ih, Ne.symm hc]

theorem idxOfFirst_of_mem {α : Type} [DecidableEq α] {l : List α} {t : α}
    (h : t ∈ l) : ∃ i, idxOfFirst l t = some i := by
  cases he : idxOfFirst l t with
  | none => exact absurd h (idxOfFirst_eq_none.mp he)
  | some i => exact ⟨i, rfl⟩

theorem idxOfFirst_spec {α : Type} [DecidableEq α] {t : α} :
    ∀ {l : List α} {i : Nat}, idxOfFirst l t = some i →
      i < l.length ∧ (∀ d, l.getD i d = t) := by
  intro l
  induction l with
  | nil => intro i h; simp [idxOfFirst] at h
  | cons c cs ih =>
    intro i h
    by_cases hc : c = t
    · simp only [idxOfFirst, if_pos hc, Option.some.injEq] at h
      subst h
      exact ⟨by simp, fun d => hc⟩
    · simp only [idxOfFirst, if_neg hc, Option.map_eq_some'] at h
      obtain ⟨j, hj, rfl⟩ := h
      obtain ⟨h1, h2⟩ := ih hj
      exact ⟨Nat.succ_lt_succ h1, fun d => by simpa using h2 d⟩

theorem idxOfFirst_append_left {α : Type} [DecidableEq α] {l1 l2 : List α} {t : α}
    (h : t ∈ l1) : idxOfFirst (l1 ++ l2) t = idxOfFirst l1 t := by
  induction l1 with
  | nil => simp at h
  | cons c cs ih =>
    by_cases hc : c = t
    · simp [idxOfFirst, hc]
    · have : t ∈ cs := by
        rcases List.mem_cons.mp h with h' | h'
        · exact absurd h'.symm hc
        · exact h'
      simp [idxOfFirst, hc, ih this]

theorem idxOfFirst_append_right {α : Type} [DecidableEq α] {l1 l2 : List α} {t : α}
    (h : t ∉ l1) :
    idxOfFirst (l1 ++ l2) t = (idxOfFirst l2 t).map (l1.length + ·) := by
  induction l1 with
  | nil => simp
  | cons c cs ih =>
    have hc : c ≠ t := fun he => h (he ▸ List.mem_cons_self _ _)
    have hcs : t ∉ cs := fun hm => h (List.mem_cons_of_mem _ hm)
    show (if c = t then some 0 else (idxOfFirst (cs ++ l2) t).map (· + 1)) = _
    rw [if_neg hc, ih hcs]
    cases idxOfFirst l2 t with
    | none => rfl
    | some j =>
      simp only [Option.map_some', Option.some.injEq, List.length_cons]
      omega

theorem idxOfFirst_map {α β : Type} [DecidableEq α] [DecidableEq β]
    {f : α → β} {t : β} {s : α} (hf : ∀ c, f c = t ↔ c = s) (l : List α) :
    idxOfFirst (l.map f) t = idxOfFirst l s := by
  induction l with
  | nil => simp [idxOfFirst]
  | cons c cs ih =>
    by_cases hc : c = s
    · subst hc
      show (if f c = t then some 0 else (idxOfFirst (cs.map f) t).map (· + 1)) =
        (if c = c then some 0 else (idxOfFirst cs c).map (· + 1))
      rw [if_pos ((hf c).mpr rfl), if_pos rfl]
    · show (if f c = t then some 0 else (idxOfFirst (cs.map f) t).map (· + 1)) =
        (if c = s then some 0 else (idxOfFirst cs s).map (· + 1))
      rw [if_neg (fun h => hc ((hf c).mp h)), if_neg hc, ih]

theorem idxOfFirst_map_on {α β : Type} [DecidableEq α] [DecidableEq β]
    {f : α → β} {t : β} {s : α} :
    ∀ {l : List α}, (∀ c ∈ l, (f c = t ↔ c = s)) →
      idxOfFirst (l.map f) t = idxOfFirst l s := by
  intro l
  induction l with
  | nil => simp [idxOfFirst]
  | cons c cs ih =>
    intro hf
    have hfc := hf c (List.mem_cons_self _ _)
    have hcs : ∀ x ∈ cs, (f x = t ↔ x = s) :=
      fun x hx => hf x (List.mem_cons_of_mem _ hx)
    by_cases hc : c = s
    · show (if f c = t then some 0 else (idxOfFirst (cs.map f) t).map (· + 1)) =
        (if c = s then some 0 else (idxOfFirst cs s).map (· + 1))
      rw [if_pos (hfc.mpr hc), if_pos hc]
    · show (if f c = t then some 0 else (idxOfFirst (cs.map f) t).map (· + 1)) =
        (if c = s then some 0 else (idxOfFirst cs s).map (· + 1))
      rw [if_neg (fun hx => hc (hfc.mp hx)), if_neg hc, ih hcs]

theorem eraseIdx_zero_getD {α : Type} (l : List α) (d : α) :
    (l.eraseIdx 0).getD 0 d = l.getD 1 d := by
  cases l <;> rfl

theorem append_suffix_ne {s t : String}
    (h : ¬ s.data.reverse <+: t.data.reverse) (c : String) : c ++ s ≠ t := by
  intro he
  apply h
  have hd : c.data ++ s.data = t.data := by
    rw [← String.data_append, he]
  exact ⟨c.data.reverse, by rw [← List.reverse_append, hd]⟩

theorem str_append_right_cancel {a b s : String} (h : a ++ s = b ++ s) : a = b := by
  apply String.ext
  exact List.append_cancel_right
    (show a.data ++ s.data = b.data ++ s.data by
      rw [← String.data_append, ← String.data_append, h])

theorem filter_eq_singleton_of_nodup_map {α β : Type} [DecidableEq β]
    {f : α → β} :
    ∀ {l : List α} {a : α}, a ∈ l → (l.map f).Nodup →
      l.filter (fun x => f x = f a) = [a] := by
  intro l
  induction l with
  | nil => intro a h; simp at h
  | cons c cs ih =>
    intro a hmem hnd
    simp only [List.map_cons, List.nodup_cons] at hnd
    rcases List.mem_cons.mp hmem with rfl | hmem'
    · rw [List.filter_cons_of_pos (by simp)]
      have : cs.filter (fun x => f x = f a) = [] := by
        rw [List.filter_eq_nil_iff]
        intro x hx
        simp only [decide_eq_true_eq]
        exact fun he => hnd.1 (he ▸ List.mem_map_of_mem f hx)
      rw [this]
    · have hne : f c ≠ f a := fun he => hnd.1 (he ▸ List.mem_map_of_mem f hmem')
      rw [List.filter_cons_of_neg (by simpa using hne)]
      exact ih hmem' hnd.2

theorem flatMap_eq_map {α β : Type} {f : α → List β} {g : α → β} :
    ∀ {l : List α}, (∀ a ∈ l, f a = [g a]) → l.flatMap f = l.map g := by
  intro l
  induction l with
  | nil => simp
  | cons c cs ih =>
    intro h
    simp only [List.flatMap_cons, List.map_cons, h c (List.mem_cons_self _ _),
      ih (fun a ha => h a (List.mem_cons_of_mem _ ha)), List.singleton_append]

theorem eraseIdx_set {α : Type} :
    ∀ (l : List α) (i : Nat) (v : α), (l.set i v).eraseIdx i = l.eraseIdx i := by
  intro l
  induction l with
  | nil => simp
  | cons c cs ih =>
    intro i v
    cases i with
    | zero => simp
    | succ j => simp [List.set_cons_succ, List.eraseIdx_cons_succ, ih]

theorem getD_set_self {α : Type} {l : List α} {i : Nat} {v d : α}
    (h : i < l.length) : (l.set i v).getD i d = v := by
  simp [List.getD_eq_getElem?_getD, List.getElem?_set_self (by simpa using h)]

theorem getD_set_ne {α : Type} {l : List α} {i j : Nat} {v d : α}
    (h : i ≠ j) : (l.set i v).getD j d = l.getD j d := by
  simp [List.getD_eq_getElem?_getD, List.getElem?_set_ne h]

/-!
## Characterizations of the embedded pandas operations
-/

theorem colIdx_eq_none_iff {df : DataFrame} {c : String} :
    df.colIdx c = none ↔ c ∉ df.cols := idxOfFirst_eq_none

theorem colIdx_of_mem {df : DataFrame} {c : String} (h : c ∈ df.cols) :
    ∃ i, df.colIdx c = some i ∧ i < df.cols.length ∧ (∀ d, df.cols.getD i d = c) := by
  obtain ⟨i, hi⟩ := idxOfFirst_of_mem h
  obtain ⟨h1, h2⟩ := idxOfFirst_spec hi
  exact ⟨i, hi, h1, h2⟩

theorem fillnaCol_cols (df : DataFrame) (c : String) :
    (df.fillnaCol c).cols = df.cols := by
  cases hm : df.colIdx c <;> simp [DataFrame.fillnaCol, hm]

theorem fillnaCol_rows_of_idx {df : DataFrame} {c : String} {i : Nat}
    (h : df.colIdx c = some i) :
    (df.fillnaCol c).rows =
      df.rows.map (fun r => r.set i (fillUnknown (r.getD i .vnull))) := by
  simp [DataFrame.fillnaCol, h]

theorem normalizeSepE_ok_cols {df t : DataFrame} {c s : String}
    (h : df.normalizeSepE c s = .ok t) : t.cols = df.cols := by
  rw [DataFrame.normalizeSepE] at h
  split at h
  · exact Except.noConfusion h
  · split at h
    · exact Except.noConfusion h
    · simp only [Except.ok.injEq] at h
      rw [← h]

theorem normalizeStep_ok_cols {df t : DataFrame} {c : String} {sep : Option String}
    (h : normalizeStep df c sep = .ok t) : t.cols = df.cols := by
  cases sep with
  | none => simp only [normalizeStep, Except.ok.injEq] at h; rw [← h]
  | some s => exact normalizeSepE_ok_cols h

theorem explodeE_ok_inv {df t : DataFrame} {c : String}
    (h : df.explodeE c = .ok t) :
    ∃ i, df.colIdx c = some i ∧ t.cols = df.cols ∧
      t.rows = df.rows.flatMap (fun r =>
        (explodeVal (r.getD i .vnull)).map (fun v => r.set i v)) := by
  rw [DataFrame.explodeE] at h
  split at h
  · exact Except.noConfusion h
  · next i hi =>
    simp only [Except.ok.injEq] at h
    exact ⟨i, hi, by rw [← h], by rw [← h]⟩

theorem selectE_ok_inv {df t : DataFrame} {ns : List String}
    (h : df.selectE ns = .ok t) :
    (∀ c ∈ ns, c ∈ df.cols) ∧ t.cols = ns ∧
      t.rows = df.rows.map (fun r =>
        ns.map (fun c => r.getD ((df.colIdx c).getD 0) .vnull)) := by
  rw [DataFrame.selectE] at h
  split at h
  · exact Except.noConfusion h
  · next hf =>
    simp only [Except.ok.injEq] at h
    refine ⟨?_, by rw [← h], by rw [← h]⟩
    intro c hc
    by_contra hmem
    have := List.find?_eq_none.mp hf c hc
    simp [hmem] at this

theorem dropDupE_ok_inv {df t : DataFrame}
    (h : df.dropDupE = .ok t) : t.cols = df.cols ∧ t.rows = dedupF df.rows := by
  rw [DataFrame.dropDupE] at h
  split at h
  · simp only [Except.ok.injEq] at h
    exact ⟨by rw [← h], by rw [← h]⟩
  · exact Except.noConfusion h

theorem astypeStringCol_ok_inv {df t : DataFrame} {c : String}
    (h : df.astypeStringCol c = .ok t) :
    ∃ i, df.colIdx c = some i ∧ t.cols = df.cols ∧
      t.rows = df.rows.map (fun r => r.set i (astypeStringVal (r.getD i .vnull))) := by
  rw [DataFrame.astypeStringCol] at h
  split at h
  · exact Except.noConfusion h
  · next i hi =>
    simp only [Except.ok.injEq] at h
    exact ⟨i, hi, by rw [← h], by rw [← h]⟩

theorem addId_cols_of_not_mem {df : DataFrame} (h : "id" ∉ df.cols) :
    df.addId.cols = df.cols ++ ["id"] ∧
      df.addId.rows = df.rows.enum.map (fun p => p.2 ++ [.vint (p.1 + 1)]) := by
  have : df.colIdx "id" = none := colIdx_eq_none_iff.mpr h
  simp [DataFrame.addId, this]

theorem addId_rows_of_idx {df : DataFrame} {i : Nat} (h : df.colIdx "id" = some i) :
    df.addId.cols = df.cols ∧
      df.addId.rows = df.rows.enum.map (fun p => p.2.set i (.vint (p.1 + 1))) := by
  simp [DataFrame.addId, h]

theorem renameCol_cols (df : DataFrame) (old new : String) :
    (df.renameCol old new).cols = df.cols.map (fun c => if c = old then new else c) ∧
      (df.renameCol old new).rows = df.rows := by
  simp [DataFrame.renameCol]

theorem dropColE_ok_inv {df t : DataFrame} {c : String}
    (h : df.dropColE c = .ok t) :
    ∃ i, df.colIdx c = some i ∧ t.cols = df.cols.eraseIdx i ∧
      t.rows = df.rows.map (fun r => r.eraseIdx i) := by
  rw [DataFrame.dropColE] at h
  split at h
  · exact Except.noConfusion h
  · next i hi =>
    simp only [Except.ok.injEq] at h
    exact ⟨i, hi, by rw [← h], by rw [← h]⟩

theorem normalizeStep_rows_len {df df1 : DataFrame} {c : String}
    {sep : Option String} {n : Nat}
    (h : normalizeStep df c sep = .ok df1)
    (hw : ∀ row ∈ df.rows, row.length = n) :
    ∀ row ∈ df1.rows, row.length = n := by
  cases sep with
  | none =>
    simp only [normalizeStep, Except.ok.injEq] at h
    rw [← h]
    exact hw
  | some s =>
    rw [normalizeStep, DataFrame.normalizeSepE] at h
    split at h
    · exact Except.noConfusion h
    · split at h
      · exact Except.noConfusion h
      · simp only [Except.ok.injEq] at h
        rw [← h]
        intro row hrow
        obtain ⟨r0, hr0, hr0e⟩ := List.mem_map.mp hrow
        subst hr0e
        split
        · rw [List.length_set]
          exact hw r0 hr0
        · exact hw r0 hr0

theorem explodeE_rows_len {df dfE : DataFrame} {c : String} {n : Nat}
    (h : df.explodeE c = .ok dfE)
    (hw : ∀ row ∈ df.rows, row.length = n) :
    ∀ row ∈ dfE.rows, row.length = n := by
  obtain ⟨i, -, -, hrows⟩ := explodeE_ok_inv h
  rw [hrows]
  intro row hrow
  obtain ⟨r0, hr0, hmem⟩ := List.mem_flatMap.mp hrow
  obtain ⟨v, -, hve⟩ := List.mem_map.mp hmem
  subst hve
  rw [List.length_set]
  exact hw r0 hr0

theorem mergeE_ok_inv {df1 df2 t : DataFrame} {key sL sR : String}
    (h : df1.mergeE df2 key sL sR = .ok t) :
    ∃ i j, df1.colIdx key = some i ∧ df2.colIdx key = some j ∧
      t.cols = mergeCols df1.cols df2.cols key sL sR ∧
      t.rows = df1.rows.flatMap (fun r1 =>
        (df2.rows.filter (fun r2 => r2.getD j .vnull = r1.getD i .vnull)).map
          (fun r2 => r1 ++ r2.eraseIdx j)) := by
  rw [DataFrame.mergeE] at h
  split at h
  · next i j hi hj =>
    split at h
    · simp only [Except.ok.injEq] at h
      exact ⟨i, j, hi, hj, by rw [← h], by rw [← h]⟩
    · exact Except.noConfusion h
  · exact Except.noConfusion h

/-!
## Inversion of the success paths
-/

theorem splitFK_ok_inv {df : DataFrame} {k : String} {dfA child parent : DataFrame}
    (h : splitWithForeignKey df k = .ok (dfA, child, parent)) :
    k ∈ df.cols ∧
    ∃ p0 p1 p2 m,
      df.selectE [k] = .ok p0 ∧ p0.dropDupE = .ok p1 ∧
      p1.astypeStringCol k = .ok p2 ∧
      dfA = df.fillnaCol k ∧ parent = p2.addId.fillnaCol k ∧
      dfA.mergeE parent k "" "_parent" = .ok m ∧
      (m.renameCol "id_parent" (k ++ "_id")).dropColE k = .ok child := by
  rw [splitWithForeignKey] at h
  simp only [bind, Except.bind, pure, Except.pure, throw, throwThe,
    MonadExceptOf.throw] at h
  split at h; · exact Except.noConfusion h
  split at h; · exact Except.noConfusion h
  split at h; · exact Except.noConfusion h
  next hmem =>
  split at h; · exact Except.noConfusion h
  split at h; · exact Except.noConfusion h
  obtain ⟨n, hn, h⟩ := bindOk h
  split at h; · exact Except.noConfusion h
  split at h; · exact Except.noConfusion h
  split at h; · exact Except.noConfusion h
  obtain ⟨p0, hp0, h⟩ := bindOk h
  obtain ⟨p1, hp1, h⟩ := bindOk h
  obtain ⟨p2, hp2, h⟩ := bindOk h
  obtain ⟨m, hm, h⟩ := bindOk h
  obtain ⟨child', hchild, h⟩ := bindOk h
  simp only [Except.ok.injEq, Prod.mk.injEq] at h
  obtain ⟨rfl, rfl, rfl⟩ := h
  exact ⟨by simpa using hmem, p0, p1, p2, m, hp0, hp1, hp2, rfl, rfl, hm, hchild⟩

theorem splitMM_ok_inv {df : DataFrame} {l r : String} {sep : Option String}
    {dfA lt rt j : DataFrame}
    (h : splitManyToMany df l r sep = .ok (dfA, lt, rt, j)) :
    l ∈ df.cols ∧ r ∈ df.cols ∧ dfA = df ∧
    ((df.getCol l).getD []).all Val.isNull = false ∧
    ((df.getCol r).getD []).all Val.isNull = false ∧
    ∃ df1 dfE l0 r0 r1 r3 m1 m2 sel jd,
      normalizeStep df r sep = .ok df1 ∧
      df1.explodeE r = .ok dfE ∧
      df1.selectE (df1.cols.filter (fun c => c ≠ r)) = .ok l0 ∧
      l0.dropDupE = .ok lt ∧
      dfE.selectE [r] = .ok r0 ∧ r0.dropDupE = .ok r1 ∧
      r1.addId.astypeStringCol r = .ok r3 ∧ rt = r3.fillnaCol r ∧
      dfE.mergeE lt l "_x" "_y" = .ok m1 ∧
      m1.mergeE rt r "_left" "_right" = .ok m2 ∧
      m2.selectE ["id_left", "id_right"] = .ok sel ∧
      sel.dropDupE = .ok jd ∧
      j = (jd.renameCol "id_right" (r ++ "_id")).renameCol "id_left" "title_id" := by
  rw [splitManyToMany] at h
  simp only [bind, Except.bind, pure, Except.pure, throw, throwThe,
    MonadExceptOf.throw] at h
  split at h; · exact Except.noConfusion h
  split at h; · exact Except.noConfusion h
  split at h; · exact Except.noConfusion h
  next hmeml =>
  split at h; · exact Except.noConfusion h
  next hmemr =>
  split at h; · exact Except.noConfusion h
  next hlnull =>
  split at h; · exact Except.noConfusion h
  next hrnull =>
  obtain ⟨n, hn, h⟩ := bindOk h
  split at h; · exact Except.noConfusion h
  obtain ⟨df1, hdf1, h⟩ := bindOk h
  obtain ⟨dfE, hdfE, h⟩ := bindOk h
  obtain ⟨l0, hl0, h⟩ := bindOk h
  obtain ⟨left, hleft, h⟩ := bindOk h
  obtain ⟨r0, hr0, h⟩ := bindOk h
  obtain ⟨r1, hr1, h⟩ := bindOk h
  obtain ⟨r3, hr3, h⟩ := bindOk h
  obtain ⟨m1, hm1, h⟩ := bindOk h
  obtain ⟨m2, hm2, h⟩ := bindOk h
  obtain ⟨sel, hsel, h⟩ := bindOk h
  obtain ⟨jd, hjd, h⟩ := bindOk h
  simp only [Except.ok.injEq, Prod.mk.injEq] at h
  obtain ⟨rfl, rfl, rfl, rfl⟩ := h
  exact ⟨by simpa using hmeml, by simpa using hmemr, rfl,
    by simpa using hlnull, by simpa using hrnull,
    df1, dfE, l0, r0, r1, r3, m1, m2, sel, jd,
    hdf1, hdfE, hl0, hleft, hr0, hr1, hr3, rfl, hm1, hm2, hsel, hjd, rfl⟩

theorem str_append_ne_self {s : String} (hs : s.data ≠ []) (c : String) :
    c ++ s ≠ c := by
  intro he
  have hlen := congrArg String.length he
  rw [String.length_append] at hlen
  have : s.length = 0 := by omega
  exact hs (List.length_eq_zero.mp this)

theorem nodup_coalescedKeys {vals : List Val}
    (htext : ∀ v ∈ vals, v = .vnull ∨ ∃ s, v = .vstr s)
    (hnc : ¬ (Val.vnull ∈ vals ∧ Val.vstr "Unknown" ∈ vals)) :
    (coalescedKeys vals).Nodup := by
  apply List.Nodup.map_on ?_ nodup_dedupF
  intro x hx y hy hxy
  have hx' := mem_dedupF.mp hx
  have hy' := mem_dedupF.mp hy
  rcases htext x hx' with rfl | ⟨s, rfl⟩ <;> rcases htext y hy' with rfl | ⟨t, rfl⟩
  · rfl
  · simp only [fillUnknown, Val.vstr.injEq] at hxy
    exact absurd ⟨hx', hxy ▸ hy'⟩ hnc
  · simp only [fillUnknown, Val.vstr.injEq] at hxy
    exact absurd ⟨hy', hxy ▸ hx'⟩ hnc
  · simpa [fillUnknown] using hxy

theorem length_filter_ne_of_nodup {α : Type} [DecidableEq α] :
    ∀ {l : List α} {a : α}, l.Nodup → a ∈ l →
      (l.filter (fun c => c ≠ a)).length = l.length - 1 := by
  intro l a
  induction l with
  | nil => simp
  | cons c cs ih =>
    intro hnd hmem
    rw [List.nodup_cons] at hnd
    by_cases hca : c = a
    · subst hca
      rw [List.filter_cons_of_neg (by simp)]
      have hall : cs.filter (fun x => x ≠ c) = cs := by
        rw [List.filter_eq_self]
        intro x hx
        have hxc : x ≠ c := fun he => hnd.1 (he ▸ hx)
        simpa using hxc
      rw [hall]
      simp
    · have hmem' : a ∈ cs := by
        rcases List.mem_cons.mp hmem with hh | hh
        · exact absurd hh.symm hca
        · exact hh
      rw [List.filter_cons_of_pos (by simpa using hca), List.length_cons,
        ih hnd.2 hmem']
      have h1 : 1 ≤ cs.length := List.length_pos_of_mem hmem'
      simp only [List.length_cons]
      omega

theorem mergeCols_pair (c1 : List String) (k sL sR : String) (hkid : k ≠ "id") :
    mergeCols c1 [k, "id"] k sL sR =
      c1.map (fun c => if c ≠ k ∧ c ∈ [k, "id"] then c ++ sL else c) ++
        [if "id" ∈ c1 then "id" ++ sR else "id"] := by
  unfold mergeCols
  congr 1
  have hfil : ([k, "id"].filter (fun c => c ≠ k)) = ["id"] := by
    simp [List.filter, Ne.symm hkid]
  rw [hfil]
  rfl

theorem mergeCols_parent (c1 : List String) (k : String) (hkid : k ≠ "id") :
    mergeCols c1 [k, "id"] k "" "_parent" =
      c1.map (fun c => if c ≠ k ∧ c ∈ [k, "id"] then c ++ "" else c) ++
        [if "id" ∈ c1 then "id" ++ "_parent" else "id"] := by
  unfold mergeCols
  congr 1
  have hfil : ([k, "id"].filter (fun c => c ≠ k)) = ["id"] := by
    simp [List.filter, Ne.symm hkid]
  rw [hfil]
  rfl

/-- Under the rename `id_parent → {k}_id`, the label `k` sits at the same
index in the child's intermediate columns as in the input's columns. -/
theorem splitFK_child_colIdx {c1 : List String} {k : String} {ki : Nat}
    (hkid : k ≠ "id") (hkp : k ≠ "id_parent") (hki : idxOfFirst c1 k = some ki)
    (hkmem : k ∈ c1) :
    idxOfFirst ((mergeCols c1 [k, "id"] k "" "_parent").map
      (fun c => if c = "id_parent" then k ++ "_id" else c)) k = some ki := by
  rw [mergeCols_parent c1 k hkid, List.map_append, List.map_map]
  have hf : ∀ c, ((fun c => if c = "id_parent" then k ++ "_id" else c) ∘
      (fun c => if c ≠ k ∧ c ∈ [k, "id"] then c ++ "" else c)) c = k ↔ c = k := by
    intro c
    constructor
    · intro hc
      simp only [Function.comp] at hc
      by_cases h1 : (if c ≠ k ∧ c ∈ [k, "id"] then c ++ "" else c) = "id_parent"
      · rw [if_pos h1] at hc
        exact absurd hc (str_append_ne_self (by decide) k)
      · rw [if_neg h1] at hc
        by_cases h2 : c ≠ k ∧ c ∈ [k, "id"]
        · rw [if_pos h2] at hc
          rw [String.append_empty] at hc
          exact absurd hc h2.1
        · rwa [if_neg h2] at hc
    · rintro rfl
      simp only [Function.comp, ne_eq, not_true_eq_false, false_and, if_false,
        if_neg hkp]
  have hmm : k ∈ c1.map ((fun c => if c = "id_parent" then k ++ "_id" else c) ∘
      (fun c => if c ≠ k ∧ c ∈ [k, "id"] then c ++ "" else c)) := by
    refine List.mem_map.mpr ⟨k, hkmem, ?_⟩
    exact (hf k).mpr rfl
  rw [idxOfFirst_append_left hmm, idxOfFirst_map hf, hki]

/-- Structure of a successful `split_with_foreign_key` call on a textual key
column without the null/"Unknown" collision: the parent pairs each coalesced
distinct value with its 1-based first-occurrence index, and each child row is
the input row minus the key cell, extended with the parent id of its
coalesced key value. -/
theorem splitFK_structure {df : DataFrame} {k : String}
    {dfA child parent : DataFrame}
    (h : splitWithForeignKey df k = .ok (dfA, child, parent))
    (hwf : ∀ r ∈ df.rows, r.length = df.cols.length)
    (hkid : k ≠ "id")
    (htext : ∀ v ∈ (df.getCol k).getD [], v = .vnull ∨ ∃ s, v = .vstr s)
    (hnc : ¬ (Val.vnull ∈ (df.getCol k).getD [] ∧
              Val.vstr "Unknown" ∈ (df.getCol k).getD [])) :
    ∃ ki, df.colIdx k = some ki ∧ ki < df.cols.length ∧
      parent.cols = [k, "id"] ∧
      parent.rows = (coalescedKeys ((df.getCol k).getD [])).enum.map
        (fun p => [p.2, .vint (p.1 + 1)]) ∧
      child.rows = df.rows.map (fun r =>
        r.eraseIdx ki ++
          [.vint (parentIdOf ((df.getCol k).getD []) (r.getD ki .vnull))]) := by
  obtain ⟨hkmem, p0, p1, p2, m, hp0, hp1, hp2, hdfA, hparent, hm, hchild⟩ :=
    splitFK_ok_inv h
  subst hdfA
  obtain ⟨ki, hki, hkilt, hkiget⟩ := colIdx_of_mem hkmem
  have hvals : (df.getCol k).getD [] = df.rows.map (fun r => r.getD ki .vnull) := by
    simp [DataFrame.getCol, hki]
  set vals := (df.getCol k).getD [] with hvdef
  -- the selected single key column
  obtain ⟨-, hp0c, hp0r⟩ := selectE_ok_inv hp0
  have hp0r' : p0.rows = vals.map (fun v => [v]) := by
    rw [hp0r, hvals, List.map_map]
    apply List.map_congr_left
    intro r hr
    simp [hki]
  -- deduplicated
  obtain ⟨hp1c, hp1r⟩ := dropDupE_ok_inv hp1
  have hp1c' : p1.cols = [k] := hp1c.trans hp0c
  have hp1r' : p1.rows = (dedupF vals).map (fun v => [v]) := by
    rw [hp1r, hp0r']
    exact dedupF_map (fun a b hab => by simpa using hab) vals
  -- astype is the identity on a textual column
  obtain ⟨i2, hi2, hp2c, hp2r⟩ := astypeStringCol_ok_inv hp2
  have hp1k : p1.colIdx k = some 0 := by
    unfold DataFrame.colIdx
    rw [hp1c']
    simp [idxOfFirst]
  have hi20 : i2 = 0 := by
    have := hp1k.symm.trans hi2
    simpa using this.symm
  subst hi20
  have hp2c' : p2.cols = [k] := hp2c.trans hp1c'
  have hp2r' : p2.rows = (dedupF vals).map (fun v => [v]) := by
    rw [hp2r, hp1r', List.map_map]
    apply List.map_congr_left
    intro v hv
    rcases htext v (mem_dedupF.mp hv) with rfl | ⟨s, rfl⟩ <;> rfl
  -- surrogate ids
  have hidnm : "id" ∉ p2.cols := by
    rw [hp2c']
    simp [Ne.symm hkid]
  obtain ⟨hp3c, hp3r⟩ := addId_cols_of_not_mem hidnm
  have hp3c' : p2.addId.cols = [k, "id"] := by rw [hp3c, hp2c']; rfl
  have hp3r' : p2.addId.rows =
      (dedupF vals).enum.map (fun p => [p.2, .vint (p.1 + 1)]) := by
    rw [hp3r, hp2r', List.enum_map, List.map_map]
    rfl
  -- the returned parent table
  have hp3k : p2.addId.colIdx k = some 0 := by
    unfold DataFrame.colIdx
    rw [hp3c']
    simp [idxOfFirst]
  have hpc : parent.cols = [k, "id"] := by
    rw [hparent, fillnaCol_cols, hp3c']
  have hpr : parent.rows = (coalescedKeys vals).enum.map
      (fun p => [p.2, .vint (p.1 + 1)]) := by
    rw [hparent, fillnaCol_rows_of_idx hp3k, hp3r', List.map_map,
      coalescedKeys, List.enum_map, List.map_map]
    rfl
  have hpk : parent.colIdx k = some 0 := by
    unfold DataFrame.colIdx
    rw [hpc]
    simp [idxOfFirst]
  -- the join: parent keys cover the coalesced column and are distinct
  obtain ⟨i, j, hi, hj, hmc, hmr⟩ := mergeE_ok_inv hm
  have hfc : (df.fillnaCol k).colIdx k = df.colIdx k := by
    unfold DataFrame.colIdx
    rw [fillnaCol_cols]
  rw [hfc, hki] at hi
  have hiki : i = ki := by simpa using hi.symm
  rw [hpk] at hj
  have hj0 : j = 0 := by simpa using hj.symm
  rw [hiki, hj0] at hmr
  have hkeymap : parent.rows.map (fun r2 => r2.getD 0 .vnull) =
      coalescedKeys vals := by
    rw [hpr, List.map_map]
    have : ((fun r2 : Row => r2.getD 0 .vnull) ∘
        (fun p : Nat × Val => [p.2, .vint (p.1 + 1)])) = Prod.snd := by
      funext p
      rfl
    rw [this, List.enum_map_snd]
  have hkeynodup : (parent.rows.map (fun r2 => r2.getD 0 .vnull)).Nodup := by
    rw [hkeymap]
    exact nodup_coalescedKeys htext hnc
  have hmr' : m.rows = df.rows.map (fun r =>
      (r.set ki (fillUnknown (r.getD ki .vnull))) ++
        [.vint (parentIdOf vals (r.getD ki .vnull))]) := by
    rw [hmr, fillnaCol_rows_of_idx hki, List.flatMap_map]
    apply flatMap_eq_map
    intro r hr
    have hkir : ki < r.length := by rw [hwf r hr]; exact hkilt
    have hcell : (r.set ki (fillUnknown (r.getD ki .vnull))).getD ki .vnull =
        fillUnknown (r.getD ki .vnull) := getD_set_self (by simpa using hkir)
    rw [hcell]
    set w := r.getD ki .vnull with hwdef
    have hwv : w ∈ vals := by
      rw [hvals]
      exact List.mem_map_of_mem _ hr
    have hfw : fillUnknown w ∈ coalescedKeys vals :=
      List.mem_map_of_mem _ (mem_dedupF.mpr hwv)
    set L := coalescedKeys vals with hLdef
    set n := L.findIdx (fun x => x = fillUnknown w) with hndef
    have hnlt : n < L.length := by
      rw [hndef]
      exact List.findIdx_lt_length.mpr ⟨_, hfw, by simp⟩
    have hLn : L[n] = fillUnknown w := by
      have := @List.findIdx_getElem _ (fun x => x = fillUnknown w) L hnlt
      simpa using this
    have hamem : [fillUnknown w, Val.vint (n + 1)] ∈ parent.rows := by
      rw [hpr]
      have hlen : n < (L.enum.map
          (fun p => [p.2, Val.vint (p.1 + 1)])).length := by
        simpa [List.enum_length] using hnlt
      have hgot : (L.enum.map (fun p => [p.2, Val.vint (p.1 + 1)]))[n] =
          [fillUnknown w, Val.vint (n + 1)] := by
        rw [List.getElem_map, List.getElem_enum, hLn]
      exact hgot ▸ List.getElem_mem hlen
    have hfilter : parent.rows.filter
        (fun r2 => r2.getD 0 .vnull = fillUnknown w) =
        [[fillUnknown w, Val.vint (n + 1)]] :=
      filter_eq_singleton_of_nodup_map hamem hkeynodup
    rw [hfilter]
    rfl
  -- dropping the key column gives the child rows
  have hrnrows : (m.renameCol "id_parent" (k ++ "_id")).rows = m.rows :=
    (renameCol_cols m "id_parent" (k ++ "_id")).2
  obtain ⟨ic, hic, hcc, hcr⟩ := dropColE_ok_inv hchild
  by_cases hkp : k = "id_parent"
  · exfalso
    have hno : ∀ x, (if x = "id_parent" then k ++ "_id" else x) ≠ k := by
      intro x
      by_cases hx : x = "id_parent"
      · rw [if_pos hx]
        exact str_append_ne_self (by decide) k
      · rw [if_neg hx]
        rw [hkp]
        exact hx
    have : k ∉ (m.renameCol "id_parent" (k ++ "_id")).cols := by
      rw [(renameCol_cols m "id_parent" (k ++ "_id")).1]
      intro hmm
      obtain ⟨x, -, hx⟩ := List.mem_map.mp hmm
      exact hno x hx
    rw [colIdx_eq_none_iff.mpr this] at hic
    exact Option.noConfusion hic
  have hicki : ic = ki := by
    have hren : (m.renameCol "id_parent" (k ++ "_id")).colIdx k = some ki := by
      unfold DataFrame.colIdx
      rw [(renameCol_cols m "id_parent" (k ++ "_id")).1, hmc, hpc, fillnaCol_cols]
      exact splitFK_child_colIdx hkid hkp hki hkmem
    rw [hren] at hic
    simpa using hic.symm
  rw [hicki] at hcr
  refine ⟨ki, hki, hkilt, hpc, hpr, ?_⟩
  rw [hcr, hrnrows, hmr', List.map_map]
  apply List.map_congr_left
  intro r hr
  have hkir : ki < r.length := by rw [hwf r hr]; exact hkilt
  simp only [Function.comp]
  rw [List.eraseIdx_append_of_lt_length (by simpa using hkir), eraseIdx_set]

theorem isTextual_elim {v : Val} (h : v.isTextual = true) :
    v = .vnull ∨ ∃ s, v = .vstr s := by
  cases v <;> simp_all [Val.isTextual]

theorem map_enum_ids {α : Type} (L : List α) :
    L.enum.map (fun p => Val.vint (p.1 + 1)) = idsFrom L.length := by
  unfold idsFrom
  rw [← List.enum_map_fst L, List.map_map]
  rfl

/-- Shape of the labels of the first merge of the junction construction:
everything except the two key columns is suffixed. -/
theorem mem_m1cols {dfc : List String} {l r t : String}
    (ht : t ∈ mergeCols dfc (dfc.filter (fun c => c ≠ r)) l "_x" "_y") :
    t = l ∨ t = r ∨ (∃ c, t = c ++ "_x") ∨ (∃ c, t = c ++ "_y") := by
  unfold mergeCols at ht
  rcases List.mem_append.mp ht with ht1 | ht2
  · obtain ⟨c, hc, hct⟩ := List.mem_map.mp ht1
    by_cases hcase : c ≠ l ∧ c ∈ dfc.filter (fun c => c ≠ r)
    · rw [if_pos hcase] at hct
      exact Or.inr (Or.inr (Or.inl ⟨c, hct.symm⟩))
    · rw [if_neg hcase] at hct
      subst hct
      rcases not_and_or.mp hcase with h1 | h2
      · exact Or.inl (not_not.mp h1).symm.symm
      · by_cases hcr : c = r
        · exact Or.inr (Or.inl hcr)
        · exact absurd (List.mem_filter.mpr ⟨hc, by simpa using hcr⟩) h2
  · obtain ⟨c, hc, hct⟩ := List.mem_map.mp ht2
    have hcd : c ∈ dfc := List.mem_filter.mp (List.mem_filter.mp hc).1 |>.1
    rw [if_pos hcd] at hct
    exact Or.inr (Or.inr (Or.inr ⟨c, hct.symm⟩))

/-- A two-column entity frame `[value, id]` whose rows enumerate a list
carries the dense id column `1..N`. -/
theorem idcol_of_pair_shape (P : DataFrame) (c : String) (L : List Val)
    (g : Val → Val) (hc : c ≠ "id") (hcols : P.cols = [c, "id"])
    (hrows : P.rows = L.enum.map (fun p => [g p.2, .vint (p.1 + 1)])) :
    P.getCol "id" = some (idsFrom P.nrows) := by
  have hidx : P.colIdx "id" = some 1 := by
    unfold DataFrame.colIdx
    rw [hcols]
    simp [idxOfFirst, hc]
  have hn : P.nrows = L.length := by
    rw [DataFrame.nrows, hrows, List.length_map, List.enum_length]
  rw [DataFrame.getCol, hidx, Option.map_some', hn, hrows, List.map_map]
  congr 1
  exact map_enum_ids L

/-- A single-column entity frame whose sole (overwritten) column enumerates
ids carries the dense id column `1..N`. -/
theorem idcol_of_single_shape (P : DataFrame) (L : List Val)
    (hcols : P.cols = ["id"])
    (hrows : P.rows = L.enum.map (fun p => [Val.vint (p.1 + 1)])) :
    P.getCol "id" = some (idsFrom P.nrows) := by
  have hidx : P.colIdx "id" = some 0 := by
    unfold DataFrame.colIdx
    rw [hcols]
    simp [idxOfFirst]
  have hn : P.nrows = L.length := by
    rw [DataFrame.nrows, hrows, List.length_map, List.enum_length]
  rw [DataFrame.getCol, hidx, Option.map_some', hn, hrows, List.map_map]
  congr 1
  exact map_enum_ids L

/-- The parent table of any successful `split_with_foreign_key` call has the
dense id column `1..N` (also when the key column is itself named `id`, in
which case `parent['id'] = parent.index + 1` overwrites the value column
after the astype). -/
theorem splitFK_parent_idcol {df : DataFrame} {k : String}
    {dfA child parent : DataFrame}
    (h : splitWithForeignKey df k = .ok (dfA, child, parent)) :
    parent.getCol "id" = some (idsFrom parent.nrows) := by
  obtain ⟨hkmem, p0, p1, p2, m, hp0, hp1, hp2, hdfA, hparent, hm, hchild⟩ :=
    splitFK_ok_inv h
  obtain ⟨-, hp0c, hp0r⟩ := selectE_ok_inv hp0
  set vals := df.rows.map (fun r => r.getD ((df.colIdx k).getD 0) .vnull) with hvals
  have hp0r' : p0.rows = vals.map (fun v => [v]) := by
    rw [hp0r, hvals, List.map_map]
    rfl
  obtain ⟨hp1c, hp1r⟩ := dropDupE_ok_inv hp1
  have hp1c' : p1.cols = [k] := hp1c.trans hp0c
  have hp1r' : p1.rows = (dedupF vals).map (fun v => [v]) := by
    rw [hp1r, hp0r']
    exact dedupF_map (fun a b hab => by simpa using hab) vals
  obtain ⟨i2, hi2, hp2c, hp2r⟩ := astypeStringCol_ok_inv hp2
  have hp1k : p1.colIdx k = some 0 := by
    unfold DataFrame.colIdx
    rw [hp1c']
    simp [idxOfFirst]
  rw [hp1k] at hi2
  have hi20 : i2 = 0 := by simpa using hi2.symm
  subst hi20
  have hp2c' : p2.cols = [k] := hp2c.trans hp1c'
  have hp2r' : p2.rows = (dedupF vals).map (fun v => [astypeStringVal v]) := by
    rw [hp2r, hp1r', List.map_map]
    rfl
  by_cases hkid : k = "id"
  · -- the id assignment overwrites the single (astyped) value column
    subst hkid
    have hp2k : p2.colIdx "id" = some 0 := by
      unfold DataFrame.colIdx
      rw [hp2c']
      simp [idxOfFirst]
    obtain ⟨hp3c, hp3r⟩ := addId_rows_of_idx hp2k
    have hp3c' : p2.addId.cols = ["id"] := hp3c.trans hp2c'
    have hp3r' : p2.addId.rows =
        (dedupF vals).enum.map (fun p => [Val.vint (p.1 + 1)]) := by
      rw [hp3r, hp2r', List.enum_map, List.map_map]
      rfl
    have hp3k : p2.addId.colIdx "id" = some 0 := by
      unfold DataFrame.colIdx
      rw [hp3c']
      simp [idxOfFirst]
    apply idcol_of_single_shape parent (dedupF vals)
    · rw [hparent, fillnaCol_cols, hp3c']
    · rw [hparent, fillnaCol_rows_of_idx hp3k, hp3r', List.map_map]
      rfl
  · have hidnm : "id" ∉ p2.cols := by
      rw [hp2c']
      simp [Ne.symm hkid]
    obtain ⟨hp3c, hp3r⟩ := addId_cols_of_not_mem hidnm
    have hp3c' : p2.addId.cols = [k, "id"] := by rw [hp3c, hp2c']; rfl
    have hp3r' : p2.addId.rows = (dedupF vals).enum.map
        (fun p => [astypeStringVal p.2, Val.vint (p.1 + 1)]) := by
      rw [hp3r, hp2r', List.enum_map, List.map_map]
      rfl
    have hp3k : p2.addId.colIdx k = some 0 := by
      unfold DataFrame.colIdx
      rw [hp3c']
      simp [idxOfFirst]
    apply idcol_of_pair_shape parent k (dedupF vals)
      (fun v => fillUnknown (astypeStringVal v)) hkid
    · rw [hparent, fillnaCol_cols, hp3c']
    · rw [hparent, fillnaCol_rows_of_idx hp3k, hp3r', List.map_map]
      rfl

/-- A successful `split_many_to_many` call forces the right column not to be
named `id`: otherwise `right['id'] = right.index + 1` overwrites the single
value column, no suffix clash ever produces the labels `id_left`/`id_right`,
and the junction projection raises a `KeyError`. -/
theorem splitMM_r_ne_id {df : DataFrame} {l r : String} {sep : Option String}
    {dfA lt rt jt : DataFrame}
    (h : splitManyToMany df l r sep = .ok (dfA, lt, rt, jt)) : r ≠ "id" := by
  intro hrid
  subst hrid
  obtain ⟨hlm, hrm, -, -, -, df1, dfE, l0, r0, r1, r3, m1, m2, sel, jd,
    hdf1, hdfE, hl0, hlt, hr0, hr1, hr3, hrt, hm1, hm2, hsel, hjd, hj⟩ :=
    splitMM_ok_inv h
  have hdf1c : df1.cols = df.cols := normalizeStep_ok_cols hdf1
  obtain ⟨ie, hie, hdfEc, -⟩ := explodeE_ok_inv hdfE
  obtain ⟨-, hr0c, -⟩ := selectE_ok_inv hr0
  obtain ⟨hr1c, -⟩ := dropDupE_ok_inv hr1
  have hr1c' : r1.cols = ["id"] := hr1c.trans hr0c
  have hr1k : r1.colIdx "id" = some 0 := by
    unfold DataFrame.colIdx
    rw [hr1c']
    simp [idxOfFirst]
  obtain ⟨hr2c, -⟩ := addId_rows_of_idx hr1k
  have hr2c' : r1.addId.cols = ["id"] := hr2c.trans hr1c'
  obtain ⟨i3, hi3, hr3c, -⟩ := astypeStringCol_ok_inv hr3
  have hr3c' : r3.cols = ["id"] := hr3c.trans hr2c'
  have hrtc : rt.cols = ["id"] := by
    rw [hrt, fillnaCol_cols, hr3c']
  obtain ⟨sm, -, -⟩ := selectE_ok_inv hsel
  have hidl : "id_left" ∈ m2.cols := sm "id_left" (by simp)
  have hidr : "id_right" ∈ m2.cols := sm "id_right" (by simp)
  obtain ⟨i1, j1, -, -, hm2c, -⟩ := mergeE_ok_inv hm2
  rw [hm2c, hrtc] at hidl hidr
  have hfid : ∀ c : String,
      (if c ≠ "id" ∧ c ∈ ["id"] then c ++ "_left" else c) = c := by
    intro c
    apply if_neg
    rintro ⟨h1, h2⟩
    exact h1 (by simpa using h2)
  have hmem1 : ∀ t : String,
      t ∈ mergeCols m1.cols ["id"] "id" "_left" "_right" → t ∈ m1.cols := by
    intro t ht
    unfold mergeCols at ht
    rcases List.mem_append.mp ht with h1 | h2
    · obtain ⟨c, hc, hct⟩ := List.mem_map.mp h1
      rw [hfid c] at hct
      exact hct ▸ hc
    · simp at h2
  have hidl' : "id_left" ∈ m1.cols := hmem1 _ hidl
  have hidr' : "id_right" ∈ m1.cols := hmem1 _ hidr
  obtain ⟨i0, j0, -, -, hm1c, -⟩ := mergeE_ok_inv hm1
  obtain ⟨-, hl0c, -⟩ := selectE_ok_inv hl0
  obtain ⟨hltc, -⟩ := dropDupE_ok_inv hlt
  have hltc' : lt.cols = df.cols.filter (fun c => c ≠ "id") := by
    rw [hltc, hl0c, hdf1c]
  have hm1c' : m1.cols =
      mergeCols df.cols (df.cols.filter (fun c => c ≠ "id")) l "_x" "_y" := by
    rw [hm1c, hdfEc, hdf1c, hltc']
  rw [hm1c'] at hidl' hidr'
  have hll : "id_left" = l := by
    rcases mem_m1cols hidl' with hh | hh | ⟨c, hc⟩ | ⟨c, hc⟩
    · exact hh
    · exact absurd hh (by decide)
    · exact absurd hc.symm (append_suffix_ne (by decide) c)
    · exact absurd hc.symm (append_suffix_ne (by decide) c)
  have hrr : "id_right" = l := by
    rcases mem_m1cols hidr' with hh | hh | ⟨c, hc⟩ | ⟨c, hc⟩
    · exact hh
    · exact absurd hh (by decide)
    · exact absurd hc.symm (append_suffix_ne (by decide) c)
    · exact absurd hc.symm (append_suffix_ne (by decide) c)
  exact absurd (hll.trans hrr.symm) (by decide)

/-- The right table of any successful `split_many_to_many` call has the
dense id column `1..N`.  (The degenerate `right_col = 'id'` overwrite can
never reach the junction projection, so it yields no successful call.) -/
theorem splitMM_right_idcol {df : DataFrame} {l r : String} {sep : Option String}
    {dfA lt rt jt : DataFrame}
    (h : splitManyToMany df l r sep = .ok (dfA, lt, rt, jt)) :
    rt.getCol "id" = some (idsFrom rt.nrows) := by
  obtain ⟨hlm, hrm, -, -, -, df1, dfE, l0, r0, r1, r3, m1, m2, sel, jd,
    hdf1, hdfE, hl0, hlt, hr0, hr1, hr3, hrt, hm1, hm2, hsel, hjd, hj⟩ :=
    splitMM_ok_inv h
  have hdf1c : df1.cols = df.cols := normalizeStep_ok_cols hdf1
  obtain ⟨ie, hie, hdfEc, hdfEr⟩ := explodeE_ok_inv hdfE
  obtain ⟨-, hr0c, hr0r⟩ := selectE_ok_inv hr0
  obtain ⟨hr1c, hr1r⟩ := dropDupE_ok_inv hr1
  have hr1c' : r1.cols = [r] := hr1c.trans hr0c
  set valsE := dfE.rows.map (fun rr => rr.getD ((dfE.colIdx r).getD 0) .vnull)
    with hvalsE
  have hr0r' : r0.rows = valsE.map (fun v => [v]) := by
    rw [hr0r, hvalsE, List.map_map]
    rfl
  have hr1r' : r1.rows = (dedupF valsE).map (fun v => [v]) := by
    rw [hr1r, hr0r']
    exact dedupF_map (fun a b hab => by simpa using hab) valsE
  by_cases hrid : r = "id"
  · exact absurd hrid (splitMM_r_ne_id h)
  · have hidnm : "id" ∉ r1.cols := by
      rw [hr1c']
      simp [Ne.symm hrid]
    obtain ⟨hr2c, hr2r⟩ := addId_cols_of_not_mem hidnm
    have hr2c' : r1.addId.cols = [r, "id"] := by rw [hr2c, hr1c']; rfl
    have hr2r' : r1.addId.rows = (dedupF valsE).enum.map
        (fun p => [p.2, Val.vint (p.1 + 1)]) := by
      rw [hr2r, hr1r', List.enum_map, List.map_map]
      rfl
    obtain ⟨i3, hi3, hr3c, hr3r⟩ := astypeStringCol_ok_inv hr3
    have hr2k : r1.addId.colIdx r = some 0 := by
      unfold DataFrame.colIdx
      rw [hr2c']
      simp [idxOfFirst]
    rw [hr2k] at hi3
    have hi30 : i3 = 0 := by simpa using hi3.symm
    subst hi30
    have hr3c' : r3.cols = [r, "id"] := hr3c.trans hr2c'
    have hr3r' : r3.rows = (dedupF valsE).enum.map
        (fun p => [astypeStringVal p.2, Val.vint (p.1 + 1)]) := by
      rw [hr3r, hr2r', List.map_map]
      rfl
    have hr3k : r3.colIdx r = some 0 := by
      unfold DataFrame.colIdx
      rw [hr3c']
      simp [idxOfFirst]
    apply idcol_of_pair_shape rt r (dedupF valsE)
      (fun v => fillUnknown (astypeStringVal v)) hrid
    · rw [hrt, fillnaCol_cols, hr3c']
    · rw [hrt, fillnaCol_rows_of_idx hr3k, hr3r', List.map_map]
      rfl

/-- When the input has an `id` column (so the `("", "_parent")` suffixes
fire) and no column named `id_parent`, the child's columns are the input's
columns minus the key, with `{key}_id` appended. -/
theorem splitFK_child_cols {df : DataFrame} {k : String}
    {dfA child parent : DataFrame}
    (h : splitWithForeignKey df k = .ok (dfA, child, parent))
    (hkid : k ≠ "id") (hid : "id" ∈ df.cols) (hidp : "id_parent" ∉ df.cols) :
    ∃ ki, df.colIdx k = some ki ∧ ki < df.cols.length ∧
      child.cols = df.cols.eraseIdx ki ++ [k ++ "_id"] := by
  obtain ⟨hkmem, p0, p1, p2, m, hp0, hp1, hp2, hdfA, hparent, hm, hchild⟩ :=
    splitFK_ok_inv h
  subst hdfA
  obtain ⟨ki, hki, hkilt, -⟩ := colIdx_of_mem hkmem
  obtain ⟨-, hp0c, -⟩ := selectE_ok_inv hp0
  obtain ⟨hp1c, -⟩ := dropDupE_ok_inv hp1
  obtain ⟨i2, -, hp2c, -⟩ := astypeStringCol_ok_inv hp2
  have hp2c' : p2.cols = [k] := by rw [hp2c, hp1c, hp0c]
  have hidnm : "id" ∉ p2.cols := by
    rw [hp2c']
    simp [Ne.symm hkid]
  obtain ⟨hp3c, -⟩ := addId_cols_of_not_mem hidnm
  have hpc : parent.cols = [k, "id"] := by
    rw [hparent, fillnaCol_cols, hp3c, hp2c']
    rfl
  obtain ⟨i, j, -, -, hmc, -⟩ := mergeE_ok_inv hm
  have hrenc : (m.renameCol "id_parent" (k ++ "_id")).cols =
      df.cols ++ [k ++ "_id"] := by
    rw [(renameCol_cols m "id_parent" (k ++ "_id")).1, hmc, fillnaCol_cols, hpc,
      mergeCols_parent df.cols k hkid, if_pos hid, List.map_append, List.map_map]
    congr 1
    · have hpt : ∀ c ∈ df.cols,
          ((fun c => if c = "id_parent" then k ++ "_id" else c) ∘
            (fun c => if c ≠ k ∧ c ∈ [k, "id"] then c ++ "" else c)) c = c := by
        intro c hc
        have hcnp : ¬ (c = "id_parent") := fun he => hidp (he ▸ hc)
        simp only [Function.comp]
        by_cases hc2 : c ≠ k ∧ c ∈ [k, "id"]
        · rw [if_pos hc2, String.append_empty, if_neg hcnp]
        · rw [if_neg hc2, if_neg hcnp]
      rw [List.map_congr_left hpt]
      simp
  obtain ⟨ic, hic, hcc, -⟩ := dropColE_ok_inv hchild
  have hick : ic = ki := by
    have hrk : (m.renameCol "id_parent" (k ++ "_id")).colIdx k = some ki := by
      unfold DataFrame.colIdx
      rw [hrenc, idxOfFirst_append_left hkmem]
      exact hki
    rw [hrk] at hic
    simpa using hic.symm
  rw [hick] at hcc
  exact ⟨ki, hki, hkilt,
    by rw [hcc, hrenc, List.eraseIdx_append_of_lt_length hkilt]⟩

/-!
## Claim theorems
-/

/-- C1, amended: for a well-formed input whose textual key column is not
itself named `id` and does not contain both a null and the literal string
`"Unknown"`, the child table of `split_with_foreign_key` has exactly the
input's row count.  (`claim_C1_counterexample` shows the original claim's
inclusion of the null-plus-"Unknown" inputs is wrong; such inputs duplicate
parent keys and the join fans out.) -/
theorem claim_C1_rowcount_amended {df : DataFrame} {k : String}
    {dfA child parent : DataFrame}
    (h : splitWithForeignKey df k = .ok (dfA, child, parent))
    (hwf : ∀ r ∈ df.rows, r.length = df.cols.length)
    (hkid : k ≠ "id")
    (htext : ∀ v ∈ (df.getCol k).getD [], v.isTextual = true)
    (hnc : ¬ (Val.vnull ∈ (df.getCol k).getD [] ∧
              Val.vstr "Unknown" ∈ (df.getCol k).getD [])) :
    child.nrows = df.nrows := by
  obtain ⟨ki, -, -, -, -, hrows⟩ := splitFK_structure h hwf hkid
    (fun v hv => isTextual_elim (htext v hv)) hnc
  simp [DataFrame.nrows, hrows]

/-- C4: whenever `split_with_foreign_key` returns, its parent table's id
column is exactly the contiguous sequence `1..N` for `N` the parent's row
count; and whenever `split_many_to_many` returns, its right table's id
column is exactly `1..N` for `N` the right table's row count. -/
theorem claim_C4_id_density (dfa dfb : DataFrame) (k l r : String)
    (s : Option String) :
    (∀ dfA child parent, splitWithForeignKey dfa k = .ok (dfA, child, parent) →
      parent.getCol "id" = some (idsFrom parent.nrows)) ∧
    (∀ dfA lt rt jt, splitManyToMany dfb l r s = .ok (dfA, lt, rt, jt) →
      rt.getCol "id" = some (idsFrom rt.nrows)) :=
  ⟨fun _ _ _ h => splitFK_parent_idcol h,
   fun _ _ _ _ h => splitMM_right_idcol h⟩

/-- C4, witness at concrete inputs for both splitters. -/
theorem claim_C4_id_density_witness :
    (⟨["t", "id"], [[.vstr "M", .vint 1], [.vstr "T", .vint 2]]⟩ : DataFrame).getCol "id"
        = some (idsFrom (⟨["t", "id"],
            [[.vstr "M", .vint 1], [.vstr "T", .vint 2]]⟩ : DataFrame).nrows) ∧
    (⟨["course", "id"], [[.vstr "m", .vint 1]]⟩ : DataFrame).getCol "id"
        = some (idsFrom (⟨["course", "id"],
            [[.vstr "m", .vint 1]]⟩ : DataFrame).nrows) :=
  ⟨(claim_C4_id_density exC4w exC4wMM "t" "id" "course" none).1 exC4w
      ⟨["id", "t_id"], [[.vint 1, .vint 1], [.vint 2, .vint 2], [.vint 3, .vint 1]]⟩
      ⟨["t", "id"], [[.vstr "M", .vint 1], [.vstr "T", .vint 2]]⟩ rfl,
   (claim_C4_id_density exC4w exC4wMM "t" "id" "course" none).2 exC4wMM
      ⟨["id"], [[.vint 1], [.vint 2]]⟩
      ⟨["course", "id"], [[.vstr "m", .vint 1]]⟩
      ⟨["title_id", "course_id"], [[.vint 1, .vint 1], [.vint 2, .vint 1]]⟩ rfl⟩

/-- C1, witness for the amended theorem. -/
theorem claim_C1_rowcount_amended_witness :
    (⟨["id"], [[.vint 1], [.vint 2], [.vint 1]]⟩ : DataFrame).nrows = exC1w.nrows :=
  @claim_C1_rowcount_amended exC1w "t" exC1w
    ⟨["id"], [[.vint 1], [.vint 2], [.vint 1]]⟩
    ⟨["t", "id"], [[.vstr "Movie", .vint 1], [.vstr "TV Show", .vint 2]]⟩
    rfl (by decide) (by decide) (by decide) (by decide)

/-- C1, counterexample: on the valid 4-row table `exC1` whose key column
contains both a null and the literal string `"Unknown"`,
`split_with_foreign_key` returns a child table with 6 rows: the parent then
holds two `"Unknown"` rows (one deduplicated literal, one coalesced null)
and the join fans out, so the row count is not preserved. -/
theorem claim_C1_counterexample :
    (splitWithForeignKey exC1 "k").map (fun t => t.2.1.nrows) = .ok 6 ∧
      exC1.nrows = 4 := ⟨rfl, rfl⟩

/-- C2, counterexample: `split_with_foreign_key` mutates the caller's
table.  After a successful call on `exC2`, the caller-visible state of the
input frame has the key column's null replaced by `"Unknown"`, so it
differs from the frame the caller passed in. -/
theorem claim_C2_counterexample :
    (splitWithForeignKey exC2 "k").map (fun t => t.1) = .ok exC2After ∧
      exC2After ≠ exC2 := ⟨rfl, by decide⟩

/-- C2, amended: `split_many_to_many` leaves the caller's table unchanged
(it copies before its only column assignment), but `split_with_foreign_key`
mutates the caller's table in place: on success the caller-visible final
state of the input equals the input with the key column's nulls replaced by
`"Unknown"` and nothing else changed. -/
theorem claim_C2_amended (df dfm : DataFrame) (k l r : String) (s : Option String) :
    (∀ dfA child parent, splitWithForeignKey df k = .ok (dfA, child, parent) →
      dfA = df.fillnaCol k) ∧
    (∀ out, splitManyToMany dfm l r s = .ok out → out.1 = dfm) := by
  constructor
  · intro dfA child parent h
    obtain ⟨-, p0, p1, p2, m, -, -, -, hdfA, -⟩ := splitFK_ok_inv h
    exact hdfA
  · rintro ⟨a, b, c, d⟩ h
    exact (splitMM_ok_inv h).2.2.1

/-- C2, witness for the amended theorem at concrete inputs. -/
theorem claim_C2_amended_witness :
    exC2w = exC2w.fillnaCol "t" ∧
      ((exC2wMM, exC2wMMOut) : DataFrame × DataFrame × DataFrame × DataFrame).1
        = exC2wMM :=
  ⟨(claim_C2_amended exC2w exC2wMM "t" "id" "g" none).1 exC2w
      ⟨["u", "id"], [[.vstr "p", .vint 1], [.vstr "q", .vint 2], [.vstr "r", .vint 1]]⟩
      ⟨["t", "id"], [[.vstr "A", .vint 1], [.vstr "B", .vint 2]]⟩ rfl,
   (claim_C2_amended exC2w exC2wMM "t" "id" "g" none).2 (exC2wMM, exC2wMMOut) rfl⟩

/-- C5, amended: for a well-formed input that has a column named `id` (and
none named `id_parent`), whose textual key column is not named `id` and does
not contain both a null and the literal `"Unknown"`, the child equals the
input with the key column removed and one new integer column `{key}_id`
appended, whose value in every row is non-null and is exactly the parent id
of that row's null-coalesced key value.  (Without an `id` column the new
column is named `id` — `claim_C5_counterexample`; with the null/"Unknown"
collision the child gains rows — `claim_C1_counterexample`.) -/
theorem claim_C5_child_shape_amended {df : DataFrame} {k : String}
    {dfA child parent : DataFrame}
    (h : splitWithForeignKey df k = .ok (dfA, child, parent))
    (hwf : ∀ r ∈ df.rows, r.length = df.cols.length)
    (hkid : k ≠ "id")
    (htext : ∀ v ∈ (df.getCol k).getD [], v.isTextual = true)
    (hnc : ¬ (Val.vnull ∈ (df.getCol k).getD [] ∧
              Val.vstr "Unknown" ∈ (df.getCol k).getD []))
    (hid : "id" ∈ df.cols) (hidp : "id_parent" ∉ df.cols) :
    ∃ ki, df.colIdx k = some ki ∧
      child.cols = df.cols.eraseIdx ki ++ [k ++ "_id"] ∧
      child.rows = df.rows.map (fun r => r.eraseIdx ki ++
        [.vint (parentIdOf ((df.getCol k).getD []) (r.getD ki .vnull))]) ∧
      ∀ r ∈ df.rows,
        parent.rows.getD
            (parentIdOf ((df.getCol k).getD []) (r.getD ki .vnull) - 1) [] =
          [fillUnknown (r.getD ki .vnull),
            .vint (parentIdOf ((df.getCol k).getD []) (r.getD ki .vnull))] := by
  obtain ⟨ki, hki, hkilt, hpc, hpr, hcr⟩ := splitFK_structure h hwf hkid
    (fun v hv => isTextual_elim (htext v hv)) hnc
  obtain ⟨ki2, hki2, -, hcc⟩ := splitFK_child_cols h hkid hid hidp
  rw [hki] at hki2
  have hk2 : ki2 = ki := by simpa using hki2.symm
  rw [hk2] at hcc
  refine ⟨ki, hki, hcc, hcr, ?_⟩
  intro r hr
  have hvals : (df.getCol k).getD [] =
      df.rows.map (fun r => r.getD ki .vnull) := by
    simp [DataFrame.getCol, hki]
  set vals := (df.getCol k).getD [] with hvdef
  set w := r.getD ki .vnull with hwdef
  have hwv : w ∈ vals := by
    rw [hvals]
    exact List.mem_map_of_mem _ hr
  set L := coalescedKeys vals with hLdef
  set n := L.findIdx (fun x => x = fillUnknown w) with hndef
  have hfw : fillUnknown w ∈ L := List.mem_map_of_mem _ (mem_dedupF.mpr hwv)
  have hnlt : n < L.length := by
    rw [hndef]
    exact List.findIdx_lt_length.mpr ⟨_, hfw, by simp⟩
  have hLn : L[n] = fillUnknown w := by
    have := @List.findIdx_getElem _ (fun x => x = fillUnknown w) L hnlt
    simpa using this
  have hpid : parentIdOf vals w = n + 1 := rfl
  have hplen : n < (L.enum.map
      (fun p => [p.2, Val.vint (p.1 + 1)])).length := by
    simpa [List.enum_length] using hnlt
  rw [hpid, Nat.add_sub_cancel, hpr,
    List.getD_eq_getElem _ _ hplen, List.getElem_map, List.getElem_enum, hLn]
  simp

/-- C5, witness for the amended theorem at a concrete input. -/
theorem claim_C5_child_shape_amended_witness :
    ∃ ki, exC5w.colIdx "s" = some ki ∧
      (⟨["id", "s_id"], [[.vint 1, .vint 1], [.vint 2, .vint 2],
          [.vint 3, .vint 1]]⟩ : DataFrame).cols =
        exC5w.cols.eraseIdx ki ++ ["s" ++ "_id"] ∧
      (⟨["id", "s_id"], [[.vint 1, .vint 1], [.vint 2, .vint 2],
          [.vint 3, .vint 1]]⟩ : DataFrame).rows =
        exC5w.rows.map (fun r => r.eraseIdx ki ++
          [.vint (parentIdOf ((exC5w.getCol "s").getD []) (r.getD ki .vnull))]) ∧
      ∀ r ∈ exC5w.rows,
        (⟨["s", "id"], [[.vstr "P", .vint 1],
            [.vstr "Q", .vint 2]]⟩ : DataFrame).rows.getD
            (parentIdOf ((exC5w.getCol "s").getD []) (r.getD ki .vnull) - 1) [] =
          [fillUnknown (r.getD ki .vnull),
            .vint (parentIdOf ((exC5w.getCol "s").getD []) (r.getD ki .vnull))] :=
  @claim_C5_child_shape_amended exC5w "s" exC5w
    ⟨["id", "s_id"], [[.vint 1, .vint 1], [.vint 2, .vint 2], [.vint 3, .vint 1]]⟩
    ⟨["s", "id"], [[.vstr "P", .vint 1], [.vstr "Q", .vint 2]]⟩
    rfl (by decide) (by decide) (by decide) (by decide) (by decide) (by decide)

/-- C3: evaluating `split_many_to_many` on the spec's scenario (2-row table,
one row with null `country`, separator `","`).  The explode step does yield a
single row with a null right value and the right table does get exactly one
`"Unknown"` entry (id 1) — but the junction contains only `(2, 2)` for the
France row: no junction row references the `"Unknown"` entry, because the
exploded frame's null key is never coalesced before the inner join, so the
null row is dropped there.  The `"Unknown"` entity is left orphaned,
contradicting the claim. -/
theorem claim_C3_null_row_orphans_unknown :
    splitManyToMany exC3 "id" "country" (some ",") =
      .ok (exC3,
        ⟨["id"], [[.vint 1], [.vint 2]]⟩,
        ⟨["country", "id"], [[.vstr "Unknown", .vint 1], [.vstr "France", .vint 2]]⟩,
        ⟨["title_id", "country_id"], [[.vint 2, .vint 2]]⟩) := by rfl

/-- C5, counterexample: on the valid input `exC5`, which has no column
named `id`, the merge's suffixes `("", "_parent")` never fire, so the child's
new foreign-key column is named `id` — not `k_id` as the claim states for
every valid input. -/
theorem claim_C5_counterexample :
    (splitWithForeignKey exC5 "k").map (fun t => t.2.1.cols) =
      .ok ["v", "id"] := rfl

/-- C6, amended: for a well-formed input (distinct column labels, rectangular
rows) having no column literally named `id_left` or `id_right`, every
successful `split_many_to_many` call returns a junction with no duplicate
(left id, right id) pair, every right foreign key present in the right
table's id column, and every left foreign key present in the left table's
key column.  (`claim_C6_counterexample` shows the claim fails when the input
has columns named `id_left`/`id_right`: the projection then picks those raw
data columns instead of the suffixed surrogate ids.) -/
theorem claim_C6_junction_integrity_amended {df : DataFrame} {l r : String}
    {sep : Option String} {dfA lt rt jt : DataFrame}
    (h : splitManyToMany df l r sep = .ok (dfA, lt, rt, jt))
    (hwf : ∀ row ∈ df.rows, row.length = df.cols.length)
    (hnodup : df.cols.Nodup)
    (hnl : "id_left" ∉ df.cols) (hnr : "id_right" ∉ df.cols) :
    jt.rows.Nodup ∧
    ∀ row ∈ jt.rows,
      row.getD 1 .vnull ∈ (rt.getCol "id").getD [] ∧
      row.getD 0 .vnull ∈ (lt.getCol l).getD [] := by
  have hrid : r ≠ "id" := splitMM_r_ne_id h
  obtain ⟨hlm, hrm, -, -, -, df1, dfE, l0, r0, r1, r3, m1, m2, sel, jd,
    hdf1, hdfE, hl0, hlt, hr0, hr1, hr3, hrt, hm1, hm2, hsel, hjd, hj⟩ :=
    splitMM_ok_inv h
  have hdf1c : df1.cols = df.cols := normalizeStep_ok_cols hdf1
  obtain ⟨ie, hie, hdfEc, -⟩ := explodeE_ok_inv hdfE
  have hdfEc' : dfE.cols = df.cols := hdfEc.trans hdf1c
  obtain ⟨-, hl0c, hl0r⟩ := selectE_ok_inv hl0
  obtain ⟨hltc, hltr⟩ := dropDupE_ok_inv hlt
  have hltc' : lt.cols = df.cols.filter (fun c => c ≠ r) := by
    rw [hltc, hl0c, hdf1c]
  -- the right table's columns
  obtain ⟨-, hr0c, -⟩ := selectE_ok_inv hr0
  obtain ⟨hr1c, -⟩ := dropDupE_ok_inv hr1
  have hr1c' : r1.cols = [r] := hr1c.trans hr0c
  have hidnm : "id" ∉ r1.cols := by
    rw [hr1c']
    simp [Ne.symm hrid]
  obtain ⟨hr2c, -⟩ := addId_cols_of_not_mem hidnm
  have hr2c' : r1.addId.cols = [r, "id"] := by rw [hr2c, hr1c']; rfl
  obtain ⟨i3, hi3, hr3c, -⟩ := astypeStringCol_ok_inv hr3
  have hr3c' : r3.cols = [r, "id"] := hr3c.trans hr2c'
  have hrtc : rt.cols = [r, "id"] := by rw [hrt, fillnaCol_cols, hr3c']
  have hrtid : rt.colIdx "id" = some 1 := by
    unfold DataFrame.colIdx
    rw [hrtc]
    simp [idxOfFirst, hrid]
  -- the two junction merges
  obtain ⟨i1, j1, hi1, hj1, hm1c, hm1r⟩ := mergeE_ok_inv hm1
  obtain ⟨i2, j2, hi2, hj2, hm2c, hm2r⟩ := mergeE_ok_inv hm2
  have hrtk : rt.colIdx r = some 0 := by
    unfold DataFrame.colIdx
    rw [hrtc]
    simp [idxOfFirst]
  rw [hrtk] at hj2
  have hj20 : j2 = 0 := by simpa using hj2.symm
  obtain ⟨sm, hselc, hselr⟩ := selectE_ok_inv hsel
  have hidl : "id_left" ∈ m2.cols := sm "id_left" (by simp)
  have hm1c' : m1.cols =
      mergeCols df.cols (df.cols.filter (fun c => c ≠ r)) l "_x" "_y" := by
    rw [hm1c, hdfEc', hltc']
  have hm1no : ∀ t, t ∈ m1.cols →
      (t = l ∨ t = r ∨ (∃ c, t = c ++ "_x") ∨ (∃ c, t = c ++ "_y")) := by
    rw [hm1c']
    exact fun t ht => mem_m1cols ht
  have hm1nl : "id_left" ∉ m1.cols := by
    intro hmem
    rcases hm1no _ hmem with hh | hh | ⟨c, hc⟩ | ⟨c, hc⟩
    · exact hnl (by rw [hh]; exact hlm)
    · exact hnl (by rw [hh]; exact hrm)
    · exact absurd hc.symm (append_suffix_ne (by decide) c)
    · exact absurd hc.symm (append_suffix_ne (by decide) c)
  have hm1nr : "id_right" ∉ m1.cols := by
    intro hmem
    rcases hm1no _ hmem with hh | hh | ⟨c, hc⟩ | ⟨c, hc⟩
    · exact hnr (by rw [hh]; exact hlm)
    · exact hnr (by rw [hh]; exact hrm)
    · exact absurd hc.symm (append_suffix_ne (by decide) c)
    · exact absurd hc.symm (append_suffix_ne (by decide) c)
  have hm2c' : m2.cols =
      m1.cols.map (fun c => if c ≠ r ∧ c ∈ [r, "id"] then c ++ "_left" else c) ++
        [if "id" ∈ m1.cols then "id" ++ "_right" else "id"] := by
    rw [hm2c, hrtc]
    exact mergeCols_pair m1.cols r "_left" "_right" hrid
  -- the selected labels force the left key column to be named `id`
  have hidm1 : "id" ∈ m1.cols ∧ l = "id" := by
    rw [hm2c'] at hidl
    rcases List.mem_append.mp hidl with hpart | hpart
    · obtain ⟨c, hc, hce⟩ := List.mem_map.mp hpart
      by_cases hcc : c ≠ r ∧ c ∈ [r, "id"]
      · rw [if_pos hcc] at hce
        have hce' : c ++ "_left" = "id" ++ "_left" := by
          rw [hce]
          rfl
        have hcid : c = "id" := str_append_right_cancel hce'
        subst hcid
        refine ⟨hc, ?_⟩
        rcases hm1no _ hc with hh | hh | ⟨c', hc'⟩ | ⟨c', hc'⟩
        · exact hh.symm
        · exact absurd hh.symm hrid
        · exact absurd hc'.symm (append_suffix_ne (by decide) c')
        · exact absurd hc'.symm (append_suffix_ne (by decide) c')
      · rw [if_neg hcc] at hce
        exact absurd (hce ▸ hc) hm1nl
    · by_cases hmm : "id" ∈ m1.cols
      · rw [if_pos hmm] at hpart
        simp only [List.mem_singleton] at hpart
        exact absurd hpart (by decide)
      · rw [if_neg hmm] at hpart
        simp only [List.mem_singleton] at hpart
        exact absurd hpart (by decide)
  obtain ⟨hidm1', hlid⟩ := hidm1
  subst hlid
  -- the positions of the projected labels
  have hidf : idxOfFirst df.cols "id" = some i1 := by
    have : idxOfFirst dfE.cols "id" = some i1 := hi1
    rwa [hdfEc'] at this
  have hi1lt : i1 < df.cols.length := by
    have := (idxOfFirst_spec hidf).1
    exact this
  have hf1 : ∀ c ∈ df.cols,
      ((if c ≠ "id" ∧ c ∈ df.cols.filter (fun x => x ≠ r) then c ++ "_x" else c)
        = "id" ↔ c = "id") := by
    intro c hc
    constructor
    · intro hce
      by_cases hcc : c ≠ "id" ∧ c ∈ df.cols.filter (fun x => x ≠ r)
      · rw [if_pos hcc] at hce
        exact absurd hce (append_suffix_ne (by decide) c)
      · rwa [if_neg hcc] at hce
    · rintro rfl
      rw [if_neg]
      rintro ⟨h1, -⟩
      exact h1 rfl
  have hm1idx : idxOfFirst m1.cols "id" = some i1 := by
    rw [hm1c']
    unfold mergeCols
    have hmm : "id" ∈ df.cols.map (fun c =>
        if c ≠ "id" ∧ c ∈ df.cols.filter (fun x => x ≠ r) then c ++ "_x"
        else c) :=
      List.mem_map.mpr ⟨"id", hlm, (hf1 "id" hlm).mpr rfl⟩
    rw [idxOfFirst_append_left hmm, idxOfFirst_map_on hf1, hidf]
  have hf2 : ∀ c ∈ m1.cols,
      ((if c ≠ r ∧ c ∈ [r, "id"] then c ++ "_left" else c) = "id_left" ↔
        c = "id") := by
    intro c hc
    constructor
    · intro hce
      by_cases hcc : c ≠ r ∧ c ∈ [r, "id"]
      · rw [if_pos hcc] at hce
        have hce' : c ++ "_left" = "id" ++ "_left" := by rw [hce]; rfl
        exact str_append_right_cancel hce'
      · rw [if_neg hcc] at hce
        exact absurd (hce ▸ hc) hm1nl
    · rintro rfl
      rw [if_pos ⟨Ne.symm hrid, by simp⟩]
      rfl
  have hm2idxL : idxOfFirst m2.cols "id_left" = some i1 := by
    rw [hm2c']
    have hmm : "id_left" ∈ m1.cols.map (fun c =>
        if c ≠ r ∧ c ∈ [r, "id"] then c ++ "_left" else c) :=
      List.mem_map.mpr ⟨"id", hidm1', (hf2 "id" hidm1').mpr rfl⟩
    rw [idxOfFirst_append_left hmm, idxOfFirst_map_on hf2, hm1idx]
  have hnotinL : "id_right" ∉ m1.cols.map
      (fun c => if c ≠ r ∧ c ∈ [r, "id"] then c ++ "_left" else c) := by
    intro hmem
    obtain ⟨c, hc, hce⟩ := List.mem_map.mp hmem
    by_cases hcc : c ≠ r ∧ c ∈ [r, "id"]
    · rw [if_pos hcc] at hce
      exact absurd hce (append_suffix_ne (by decide) c)
    · rw [if_neg hcc] at hce
      exact absurd (hce ▸ hc) hm1nr
  have hm2idxR : idxOfFirst m2.cols "id_right" = some m1.cols.length := by
    rw [hm2c', idxOfFirst_append_right hnotinL, if_pos hidm1']
    have hone : idxOfFirst ["id" ++ "_right"] "id_right" = some 0 := rfl
    rw [hone]
    simp
  -- the selected rows are the two projected cells
  have hselr' : sel.rows = m2.rows.map
      (fun row => [row.getD i1 .vnull, row.getD m1.cols.length .vnull]) := by
    rw [hselr]
    apply List.map_congr_left
    intro row hrow
    have e1 : m2.colIdx "id_left" = some i1 := hm2idxL
    have e2 : m2.colIdx "id_right" = some m1.cols.length := hm2idxR
    show ["id_left", "id_right"].map
        (fun c => row.getD ((m2.colIdx c).getD 0) .vnull) = _
    simp [e1, e2]
  -- row lengths
  have hdf1len : ∀ row ∈ df1.rows, row.length = df.cols.length :=
    normalizeStep_rows_len hdf1 hwf
  have hdfElen : ∀ row ∈ dfE.rows, row.length = df.cols.length :=
    explodeE_rows_len hdfE hdf1len
  have hltlen : ∀ row ∈ lt.rows, row.length = lt.cols.length := by
    intro row hrow
    rw [hltr] at hrow
    have hrow' : row ∈ l0.rows := mem_dedupF.mp hrow
    rw [hl0r] at hrow'
    obtain ⟨r0', -, hre⟩ := List.mem_map.mp hrow'
    rw [← hre, List.length_map, hltc, hl0c]
  have hj1lt : j1 < lt.cols.length := (idxOfFirst_spec hj1).1
  have hfl2len : ((df.cols.filter (fun c => c ≠ r)).filter
      (fun c => c ≠ "id")).length = lt.cols.length - 1 := by
    have hnd2 : (df.cols.filter (fun c => c ≠ r)).Nodup := hnodup.filter _
    have hidin : "id" ∈ df.cols.filter (fun c => c ≠ r) :=
      List.mem_filter.mpr ⟨hlm, by simp [Ne.symm hrid]⟩
    rw [length_filter_ne_of_nodup hnd2 hidin, hltc']
  have hm1len : m1.cols.length = df.cols.length + (lt.cols.length - 1) := by
    rw [hm1c']
    unfold mergeCols
    rw [List.length_append, List.length_map, List.length_map, hfl2len]
  have hm1rowlen : ∀ row ∈ m1.rows, row.length = m1.cols.length := by
    intro row hrow
    rw [hm1r] at hrow
    obtain ⟨ra, hra, hmem2⟩ := List.mem_flatMap.mp hrow
    obtain ⟨rb, hrb, hre⟩ := List.mem_map.mp hmem2
    have hrb' : rb ∈ lt.rows := (List.mem_filter.mp hrb).1
    have hjb : j1 < rb.length := by
      rw [hltlen rb hrb']
      exact hj1lt
    rw [← hre, List.length_append, List.length_eraseIdx, if_pos hjb,
      hdfElen ra hra, hltlen rb hrb', hm1len]
  -- the junction rows
  have hjrows : jt.rows = dedupF sel.rows := by
    rw [hj, (renameCol_cols _ "id_left" "title_id").2,
      (renameCol_cols _ "id_right" (r ++ "_id")).2, (dropDupE_ok_inv hjd).2]
  constructor
  · rw [hjrows]
    exact nodup_dedupF
  · intro row hrow
    rw [hjrows] at hrow
    have hrow' : row ∈ sel.rows := mem_dedupF.mp hrow
    rw [hselr'] at hrow'
    obtain ⟨m2row, hm2row, hre⟩ := List.mem_map.mp hrow'
    rw [hm2r] at hm2row
    obtain ⟨r1row, hr1row, hmm2⟩ := List.mem_flatMap.mp hm2row
    obtain ⟨r2row, hr2f, hre2⟩ := List.mem_map.mp hmm2
    obtain ⟨hr2mem, hr2eq⟩ := List.mem_filter.mp hr2f
    have hr1len : r1row.length = m1.cols.length := hm1rowlen r1row hr1row
    have hgR : m2row.getD m1.cols.length Val.vnull = r2row.getD 1 .vnull := by
      rw [← hre2, List.getD_append_right _ _ _ _ (le_of_eq hr1len),
        hr1len, Nat.sub_self, hj20, eraseIdx_zero_getD]
    -- decompose the first-merge row for the left value
    rw [hm1r] at hr1row
    obtain ⟨ra, hra, hmem3⟩ := List.mem_flatMap.mp hr1row
    obtain ⟨rb, hrb, hre3⟩ := List.mem_map.mp hmem3
    obtain ⟨hrbmem, hrbeq⟩ := List.mem_filter.mp hrb
    have hralen : ra.length = df.cols.length := hdfElen ra hra
    have hgL : m2row.getD i1 Val.vnull = ra.getD i1 .vnull := by
      have hi1r1 : i1 < r1row.length := by
        rw [hr1len, hm1len]
        omega
      have hi1ra : i1 < ra.length := by
        rw [hralen]
        exact hi1lt
      rw [← hre2, List.getD_append _ _ _ _ hi1r1, ← hre3,
        List.getD_append _ _ _ _ hi1ra]
    rw [← hre]
    constructor
    · -- right foreign key
      have hcol : (rt.getCol "id").getD [] =
          rt.rows.map (fun rr => rr.getD 1 .vnull) := by
        rw [DataFrame.getCol, hrtid]
        rfl
      rw [hcol]
      show m2row.getD m1.cols.length Val.vnull ∈ _
      rw [hgR]
      exact List.mem_map_of_mem _ hr2mem
    · -- left foreign key
      have hcol : (lt.getCol "id").getD [] =
          lt.rows.map (fun rr => rr.getD j1 .vnull) := by
        rw [DataFrame.getCol, hj1]
        rfl
      rw [hcol]
      show m2row.getD i1 Val.vnull ∈ _
      rw [hgL, ← of_decide_eq_true hrbeq]
      exact List.mem_map_of_mem _ hrbmem

/-- C6, witness for the amended theorem at a concrete input. -/
theorem claim_C6_junction_integrity_amended_witness :
    (⟨["title_id", "g_id"], [[.vint 1, .vint 1], [.vint 2, .vint 1],
        [.vint 3, .vint 2]]⟩ : DataFrame).rows.Nodup ∧
    ∀ row ∈ (⟨["title_id", "g_id"], [[.vint 1, .vint 1], [.vint 2, .vint 1],
        [.vint 3, .vint 2]]⟩ : DataFrame).rows,
      row.getD 1 .vnull ∈ ((⟨["g", "id"], [[.vstr "x", .vint 1],
          [.vstr "y", .vint 2]]⟩ : DataFrame).getCol "id").getD [] ∧
      row.getD 0 .vnull ∈ ((⟨["id"], [[.vint 1], [.vint 2],
          [.vint 3]]⟩ : DataFrame).getCol "id").getD [] :=
  @claim_C6_junction_integrity_amended exC6w "id" "g" none exC6w
    ⟨["id"], [[.vint 1], [.vint 2], [.vint 3]]⟩
    ⟨["g", "id"], [[.vstr "x", .vint 1], [.vstr "y", .vint 2]]⟩
    ⟨["title_id", "g_id"], [[.vint 1, .vint 1], [.vint 2, .vint 1],
      [.vint 3, .vint 2]]⟩
    rfl (by decide) (by decide) (by decide) (by decide)

/-- C6, counterexample: on the valid input `exC6`, whose data columns are
literally named `id_left` and `id_right`, the junction projection picks the
raw data columns: the junction's right foreign-key values are the strings
`"x"`, none of which occurs in the right table's id column `[1]`. -/
theorem claim_C6_counterexample :
    (splitManyToMany exC6 "id_left" "id_right" none).map
        (fun t => (t.2.2.2.rows, (t.2.2.1.getCol "id").getD [])) =
      .ok ([[.vstr "a", .vstr "x"], [.vstr "b", .vstr "x"]], [.vint 1]) ∧
      ¬ (Val.vstr "x" ∈ ([.vint 1] : List Val)) := ⟨rfl, by decide⟩

/-- C7, counterexample: on the valid input `exC7`, whose left key column is
named `name` rather than `id`, `split_many_to_many` aborts with a `KeyError`
on `id_left` (the junction projection's hard-coded labels require the merge
suffixes to have fired on a column named `id`), so no junction table is
returned at all — the junction's column names are not independent of the
input's column names. -/
theorem claim_C7_counterexample :
    splitManyToMany exC7 "name" "course" none = .error (.keyError "id_left") := rfl

/-- C7, amended: whenever `split_many_to_many` actually returns, the
junction table has exactly the two columns `title_id` and `{right_col}_id` —
but this is not independent of the input's column names: for valid inputs
whose left key column is not named `id` the call aborts with a `KeyError`
and returns no junction (`claim_C7_counterexample`). -/
theorem claim_C7_junction_cols_amended {df : DataFrame} {l r : String}
    {sep : Option String} {dfA lt rt jt : DataFrame}
    (h : splitManyToMany df l r sep = .ok (dfA, lt, rt, jt)) :
    jt.cols = ["title_id", r ++ "_id"] := by
  obtain ⟨-, -, -, -, -, df1, dfE, l0, r0, r1, r3, m1, m2, sel, jd,
    -, -, -, -, -, -, -, -, -, -, hsel, hjd, hj⟩ := splitMM_ok_inv h
  obtain ⟨-, hselc, -⟩ := selectE_ok_inv hsel
  obtain ⟨hjdc, -⟩ := dropDupE_ok_inv hjd
  have hjdc' : jd.cols = ["id_left", "id_right"] := hjdc.trans hselc
  have h2 : r ++ "_id" ≠ "id_left" := append_suffix_ne (by decide) r
  rw [hj, (renameCol_cols _ "id_left" "title_id").1,
    (renameCol_cols _ "id_right" (r ++ "_id")).1, hjdc']
  simp [h2]

/-- C7, witness for the amended theorem at a concrete input. -/
theorem claim_C7_junction_cols_amended_witness :
    (⟨["title_id", "tag_id"], [[.vint 1, .vint 1],
        [.vint 2, .vint 1]]⟩ : DataFrame).cols = ["title_id", "tag" ++ "_id"] :=
  @claim_C7_junction_cols_amended exC7w "id" "tag" none exC7w
    ⟨["id"], [[.vint 1], [.vint 2]]⟩
    ⟨["tag", "id"], [[.vstr "u", .vint 1]]⟩
    ⟨["title_id", "tag_id"], [[.vint 1, .vint 1], [.vint 2, .vint 1]]⟩ rfl

/-- C8, amended: if the key column passes the shape, dtype, null and
uniqueness checks and its FIRST value is a container, the call fails with
the specific wrong-operation (`multivalued`) error and produces no output.
Containers in later rows are not detected (`claim_C8_counterexample`), and
unhashable containers (list/set) make the preceding `nunique()` validation
raise a pandas `TypeError` first, so only a leading tuple actually reaches
this error. -/
theorem claim_C8_first_row_container_amended {df : DataFrame} {k : String}
    (n : Nat) (h1 : df.empty = false) (h2 : ¬ df.nrows < 2)
    (h3 : k ∈ df.cols)
    (h4 : inferDtype ((df.getCol k).getD []) = .object)
    (h5 : ((df.getCol k).getD []).all Val.isNull = false)
    (h6 : nuniqueE ((df.getCol k).getD []) = .ok n)
    (h7 : n ≠ df.nrows) (h8 : n ≠ 1)
    (h9 : (((df.getCol k).getD []).getD 0 .vnull).isContainer = true) :
    splitWithForeignKey df k = .error (.multivalued k) := by
  rw [splitWithForeignKey]
  simp only [bind, Except.bind, pure, Except.pure, throw, throwThe,
    MonadExceptOf.throw]
  rw [if_neg (by simp [h1]), if_neg h2, if_neg (not_not_intro h3),
    if_neg (not_not_intro h4), if_neg (by simp [h5]), h6]
  simp only [Except.bind]
  rw [if_neg h7, if_neg h8, if_pos h9]

/-- C8, witness for the amended theorem: a key column whose first value is a
tuple is rejected with the wrong-operation error. -/
theorem claim_C8_first_row_container_amended_witness :
    splitWithForeignKey exC8w "k" = .error (.multivalued "k") :=
  @claim_C8_first_row_container_amended exC8w "k" 2 rfl (by decide) (by decide)
    rfl (by decide) rfl (by decide) (by decide) rfl

/-- C8, counterexample: on the valid input `exC8`, whose key column holds a
tuple in its second row (but a string in its first), `split_with_foreign_key`
does not fail at all: the `type(df[key_col].iloc[0])` check only inspects the
first row, so the call succeeds and returns a 2-row child and 2-row parent
(silently dropping the tuple row in the join). -/
theorem claim_C8_counterexample :
    (splitWithForeignKey exC8 "k").map (fun t => (t.2.1.nrows, t.2.2.nrows)) =
      .ok (2, 2) := rfl

/-- C9: calling `split_many_to_many` with `sep=None` on a table whose right
column already stores lists of strings does not succeed: the validation
`df[right_col].nunique()` hashes the column's values and Python lists are
unhashable, so the call raises `TypeError` before the normalize step is ever
reached — contradicting the docstring's "If None, assumes lists". -/
theorem claim_C9_lists_unhashable :
    splitManyToMany exC9 "id" "course" none = .error .unhashable := rfl

/-- C10: on any table whose left key column exists and contains only null
values, `split_many_to_many` fails with a validation error and returns no
tables. -/
theorem claim_C10_allnull_left_rejected (df : DataFrame) (l r : String)
    (sep : Option String) (_hmem : l ∈ df.cols)
    (hnull : ∀ v ∈ (df.getCol l).getD [], v = .vnull) :
    ∃ e, splitManyToMany df l r sep = .error e := by
  cases hx : splitManyToMany df l r sep with
  | error e => exact ⟨e, rfl⟩
  | ok t =>
    obtain ⟨q1, q2, q3, q4⟩ := t
    obtain ⟨-, -, -, hln, -⟩ := splitMM_ok_inv hx
    obtain ⟨v, hv, hnp⟩ := List.all_eq_false.mp hln
    exact absurd (by rw [hnull v hv]; rfl) hnp

/-- C10, witness: the all-null left column of `exC10w` is rejected. -/
theorem claim_C10_witness :
    ∃ e, splitManyToMany exC10w "l" "r" none = .error e :=
  claim_C10_allnull_left_rejected exC10w "l" "r" none (by decide) (by decide)

end CsvNorm
